import Mathlib

/-!
# miamala/inference: the upload handler of `main.go`

A shallow embedding of `main.go`: the `Transaction` record, `main`, `upload`,
`extractText` and `extractTransaction`.  The handler is straight-line glue code
around four collaborators, which are embedded as follows.

* The HTTP framework, the file system and the two OpenAI calls are *stubs*: a
  `World` record fixes what each call returns, and the handler produces an
  `Outcome` together with the ordered list of `Event`s it caused.
* `encoding/json` and `strconv` are library code.  What `main.go` uses of them
  (`json.Unmarshal` into a `*Transaction`, `json.Marshal` of a `*Transaction`
  and of a `string`, `strconv.ParseFloat`, shortest `strconv.AppendFloat`) is
  modelled by executable definitions that follow the library's behaviour.
* Go strings are modelled as lists of Unicode code points (`Str`), that is,
  as well-formed UTF-8 text.
* `float64` values are modelled exactly: a finite value is a sign, a mantissa
  and a binary exponent; the infinities and NaN are separate constructors.
* Recursive scanners take fuel.  `parse_fuelFree` and
  `parseJSON_of_parseValue` show that the fuel `parseJSON` supplies is always
  enough, so that `parseJSON reply = none` means that `reply` is not JSON.
-/

namespace Inference

/-- Text: a Go string holding well-formed UTF-8, as its list of code points. -/
abbrev Str := List Char

/-! ## JSON text (`encoding/json` scanner and `unquote`) -/

/-- The JSON values, as `encoding/json` scans them.  A number keeps its
literal text (it is converted only when stored into a field). -/
inductive JValue where
  | null
  | bool (b : Bool)
  | num (lit : Str)
  | str (s : Str)
  | arr (xs : List JValue)
  | obj (ms : List (Str × JValue))

/-- The scanner's white space: space, tab, carriage return, line feed. -/
def isSpace (c : Char) : Bool :=
  c = ' ' || c = '\t' || c = '\r' || c = '\n'

/-- Drops leading white space. -/
def skipSpace : Str → Str
  | [] => []
  | c :: cs => if isSpace c then skipSpace cs else c :: cs

/-- Value of a hexadecimal digit (either case), as in `getu4`. -/
def hexVal (c : Char) : Option Nat :=
  if '0' ≤ c ∧ c ≤ '9' then some (c.toNat - 48)
  else if 'a' ≤ c ∧ c ≤ 'f' then some (c.toNat - 97 + 10)
  else if 'A' ≤ c ∧ c ≤ 'F' then some (c.toNat - 65 + 10)
  else none

/-- Value of four hexadecimal digits. -/
def hex4 (a b c d : Char) : Option Nat :=
  match hexVal a, hexVal b, hexVal c, hexVal d with
  | some x, some y, some z, some w => some (((x * 16 + y) * 16 + z) * 16 + w)
  | _, _, _, _ => none

/-- Whether a code unit is a UTF-16 surrogate (`utf16.IsSurrogate`). -/
def isSurrogate (r : Nat) : Bool := 0xD800 ≤ r && r < 0xE000

/-- Combines a surrogate pair; `none` unless `r1` is a high and `r2` a low
surrogate (`utf16.DecodeRune` returning the replacement character). -/
def decodeSurrogates (r1 r2 : Nat) : Option Char :=
  if 0xD800 ≤ r1 ∧ r1 < 0xDC00 ∧ 0xDC00 ≤ r2 ∧ r2 < 0xE000 then
    some (Char.ofNat ((r1 - 0xD800) * 0x400 + (r2 - 0xDC00) + 0x10000))
  else none

/-- The Unicode replacement character U+FFFD. -/
def replacementChar : Char := Char.ofNat 0xFFFD

/-- The character of a single-letter escape `\"`, `\\`, `\/`, `\b`, `\f`,
`\n`, `\r`, `\t`; `none` for any other letter. -/
def simpleEscape (e : Char) : Option Char :=
  if e = '"' then some '"'
  else if e = '\\' then some '\\'
  else if e = '/' then some '/'
  else if e = 'b' then some (Char.ofNat 8)
  else if e = 'f' then some (Char.ofNat 12)
  else if e = 'n' then some '\n'
  else if e = 'r' then some '\r'
  else if e = 't' then some '\t'
  else none

/-- Prepends a code unit to the result of scanning the rest. -/
def pushUnit (u : Nat) : Option (List Nat × Str) → Option (List Nat × Str)
  | none => none
  | some (us, rest) => some (u :: us, rest)

/-- Scans the inside of a string literal (the opening quote already read) up
to and including the closing quote; returns the code units of the literal and
the input after it.  A plain character or a single-letter escape gives its
code point, an escape `\uXXXX` its 16-bit value.  Control characters and
unknown escapes are errors (the scanner's `stateInString` and its
followers). -/
def scanUnits : Str → Option (List Nat × Str)
  | [] => none
  | c :: cs =>
    if c = '"' then some ([], cs)
    else if c = '\\' then
      match cs with
      | [] => none
      | e :: cs1 =>
        if e = 'u' then
          match cs1 with
          | h1 :: h2 :: h3 :: h4 :: cs2 =>
            match hex4 h1 h2 h3 h4 with
            | none => none
            | some r => pushUnit r (scanUnits cs2)
          | _ => none
        else
          match simpleEscape e with
          | some ch => pushUnit ch.toNat (scanUnits cs1)
          | none => none
    else if c.toNat < 0x20 then none
    else pushUnit c.toNat (scanUnits cs)

/-- The text of a sequence of code units (`unquote`): a high surrogate
directly followed by a low surrogate gives the character of the pair, any
other surrogate gives U+FFFD. -/
def decodeUnits : List Nat → Str
  | [] => []
  | a :: rest =>
    let tail := decodeUnits rest
    if isSurrogate a then
      match rest with
      | [] => [replacementChar]
      | b :: rest2 =>
        match decodeSurrogates a b with
        | some ch => ch :: decodeUnits rest2
        | none => replacementChar :: tail
    else Char.ofNat a :: tail

/-- Scans the inside of a string literal up to and including the closing
quote; returns the decoded text and the input after the literal. -/
def scanString (cs : Str) : Option (Str × Str) :=
  match scanUnits cs with
  | some (us, rest) => some (decodeUnits us, rest)
  | none => none

/-- Scans the integer part of a number: `0`, or a non-zero digit and any
digits. -/
def scanInt : Str → Option (Str × Str)
  | [] => none
  | c :: r =>
    if c = '0' then some (['0'], r)
    else if c.isDigit then some (c :: r.takeWhile Char.isDigit, r.dropWhile Char.isDigit)
    else none

/-- Scans the optional fraction of a number: a point and at least one digit. -/
def scanFrac : Str → Option (Str × Str)
  | [] => some ([], [])
  | c :: r =>
    if c = '.' then
      (if r.takeWhile Char.isDigit = [] then none
       else some ('.' :: r.takeWhile Char.isDigit, r.dropWhile Char.isDigit))
    else some ([], c :: r)

/-- Scans the optional sign of an exponent. -/
def scanSign : Str → Str × Str
  | [] => ([], [])
  | c :: r => if c = '+' ∨ c = '-' then ([c], r) else ([], c :: r)

/-- Scans the optional exponent of a number: `e` or `E`, an optional sign and
at least one digit. -/
def scanExp : Str → Option (Str × Str)
  | [] => some ([], [])
  | c :: r =>
    if c = 'e' ∨ c = 'E' then
      (if (scanSign r).2.takeWhile Char.isDigit = [] then none
       else some (c :: ((scanSign r).1 ++ (scanSign r).2.takeWhile Char.isDigit),
              (scanSign r).2.dropWhile Char.isDigit))
    else some ([], c :: r)

/-- Scans a number literal `-? (0 | [1-9][0-9]*) (. [0-9]+)? ([eE] [+-]? [0-9]+)?`
at the head of the input; returns its text and the input after it. -/
def scanNumber : Str → Option (Str × Str)
  | [] => none
  | c :: r =>
    match scanInt (if c = '-' then r else c :: r) with
    | none => none
    | some (ip, r1) =>
      match scanFrac r1 with
      | none => none
      | some (fp, r2) =>
        match scanExp r2 with
        | none => none
        | some (ep, r3) => some ((if c = '-' then ['-'] else []) ++ ip ++ fp ++ ep, r3)

/-- Reads the given characters at the head of the input (the rest of a
literal `true`, `false` or `null`); returns the input after them. -/
def expectText : Str → Str → Option Str
  | [], cs => some cs
  | _ :: _, [] => none
  | p :: ps, c :: cs => if c = p then expectText ps cs else none

/-- The scanner's nesting limit (`maxNestingDepth`). -/
def maxNestingDepth : Nat := 10000

mutual
/-- Scans one JSON value at the head of the input (no leading white space).
`fuel` bounds the number of nested scanner calls, `depth` is the number of
enclosing arrays and objects. -/
def parseValue : Nat → Nat → Str → Option (JValue × Str)
  | 0, _, _ => none
  | fuel + 1, depth, cs =>
    match cs with
    | [] => none
    | c :: r =>
      if c = '"' then
        match scanString r with
        | some (s, r1) => some (JValue.str s, r1)
        | none => none
      else if c = '[' then
        if maxNestingDepth ≤ depth then none
        else
          match skipSpace r with
          | [] => none
          | c1 :: r1 =>
            if c1 = ']' then some (JValue.arr [], r1)
            else
              match parseElems fuel (depth + 1) (c1 :: r1) with
              | some (xs, r2) => some (JValue.arr xs, r2)
              | none => none
      else if c = '{' then
        if maxNestingDepth ≤ depth then none
        else
          match skipSpace r with
          | [] => none
          | c1 :: r1 =>
            if c1 = '}' then some (JValue.obj [], r1)
            else
              match parseMembers fuel (depth + 1) (c1 :: r1) with
              | some (ms, r2) => some (JValue.obj ms, r2)
              | none => none
      else if c = 't' then
        match expectText "rue".toList r with
        | some r1 => some (JValue.bool true, r1)
        | none => none
      else if c = 'f' then
        match expectText "alse".toList r with
        | some r1 => some (JValue.bool false, r1)
        | none => none
      else if c = 'n' then
        match expectText "ull".toList r with
        | some r1 => some (JValue.null, r1)
        | none => none
      else
        match scanNumber (c :: r) with
        | some (lit, r1) => some (JValue.num lit, r1)
        | none => none
/-- Scans the elements of a non-empty array up to and including `]`; the
input starts at the first element. -/
def parseElems : Nat → Nat → Str → Option (List JValue × Str)
  | 0, _, _ => none
  | fuel + 1, depth, cs =>
    match parseValue fuel depth cs with
    | none => none
    | some (v, r) =>
      match skipSpace r with
      | [] => none
      | c :: r1 =>
        if c = ',' then
          match parseElems fuel depth (skipSpace r1) with
          | some (xs, r2) => some (v :: xs, r2)
          | none => none
        else if c = ']' then some ([v], r1)
        else none
/-- Scans the members of a non-empty object up to and including `}`; the
input starts at the first key. -/
def parseMembers : Nat → Nat → Str → Option (List (Str × JValue) × Str)
  | 0, _, _ => none
  | fuel + 1, depth, cs =>
    match cs with
    | [] => none
    | q :: r =>
      if q ≠ '"' then none
      else
        match scanString r with
        | none => none
        | some (k, r1) =>
          match skipSpace r1 with
          | [] => none
          | c :: r2 =>
            if c ≠ ':' then none
            else
              match parseValue fuel depth (skipSpace r2) with
              | none => none
              | some (v, r3) =>
                match skipSpace r3 with
                | [] => none
                | c1 :: r4 =>
                  if c1 = ',' then
                    match parseMembers fuel depth (skipSpace r4) with
                    | some (ms, r5) => some ((k, v) :: ms, r5)
                    | none => none
                  else if c1 = '}' then some ([(k, v)], r4)
                  else none
end

/-- A whole JSON text: optional white space, one value, optional white space,
end of input (`checkValid`).  `none` is a syntax error. -/
def parseJSON (cs : Str) : Option JValue :=
  match parseValue (cs.length + 1) 0 (skipSpace cs) with
  | some (v, r) => if skipSpace r = [] then some v else none
  | none => none

/-! ## `float64` and `strconv` -/

/-- A `float64`: a finite value `(-1)^neg * mant * 2^exp`, an infinity, or NaN.
`ParseFloat` writes a normal value with `2^52 ≤ mant < 2^53`, a subnormal one
with `exp = -1074`, and zero with `exp = 0`. -/
inductive Float64 where
  | finite (neg : Bool) (mant : Nat) (exp : Int)
  | inf (neg : Bool)
  | nan
  deriving DecidableEq, Repr

/-- The zero value of a Go `float64` (positive zero). -/
def Float64.zero : Float64 := Float64.finite false 0 0

/-- `math.IsInf(f, 0) || math.IsNaN(f)` negated. -/
def Float64.isFinite : Float64 → Bool
  | Float64.finite _ _ _ => true
  | _ => false

/-- Value of a run of decimal digits. -/
def digitsValue (ds : Str) : Nat :=
  ds.foldl (fun n c => 10 * n + (c.toNat - 48)) 0

/-- An exact decimal number `(-1)^neg * coeff * 10^exp10`. -/
structure Decimal where
  neg : Bool
  coeff : Nat
  exp10 : Int
  deriving DecidableEq, Repr

/-- Reads a number literal of the JSON grammar as an exact decimal. -/
def readDecimal (lit : Str) : Decimal :=
  let neg : Bool := lit.head? = some '-'
  let body : Str := if neg then lit.drop 1 else lit
  let ip := body.takeWhile Char.isDigit
  let r1 := body.dropWhile Char.isDigit
  let fp : Str := if r1.head? = some '.' then (r1.drop 1).takeWhile Char.isDigit else []
  let r2 : Str := if r1.head? = some '.' then (r1.drop 1).dropWhile Char.isDigit else r1
  let ex : Int :=
    if r2.head? = some 'e' ∨ r2.head? = some 'E' then
      let r3 := r2.drop 1
      if r3.head? = some '-' then - (digitsValue ((r3.drop 1).takeWhile Char.isDigit) : Int)
      else if r3.head? = some '+' then (digitsValue ((r3.drop 1).takeWhile Char.isDigit) : Int)
      else (digitsValue (r3.takeWhile Char.isDigit) : Int)
    else 0
  { neg := neg, coeff := digitsValue (ip ++ fp), exp10 := ex - (fp.length : Int) }

/-- Number of binary digits of `n` (0 for 0); the first argument is fuel. -/
def bitLength : Nat → Nat → Nat
  | 0, _ => 0
  | fuel + 1, n => if n = 0 then 0 else bitLength fuel (n / 2) + 1

/-- The pair `(a, b)` with `a / b = (num / den) / 2^e`. -/
def scaleBy (num den : Nat) (e : Int) : Nat × Nat :=
  if 0 ≤ e then (num, den * 2 ^ e.toNat) else (num * 2 ^ (-e).toNat, den)

/-- The quotient `a / b` rounded to the nearest integer, ties to even. -/
def roundHalfEven (a b : Nat) : Nat :=
  let q := a / b
  let r := a % b
  if 2 * r < b then q
  else if b < 2 * r then q + 1
  else if q % 2 = 0 then q else q + 1

/-- The `float64` nearest to `num / den` (`den > 0`), ties to even, with the
sign `neg`; the second component is true on overflow, where the result is the
infinity (IEEE 754 round-to-nearest, which `strconv.ParseFloat` implements). -/
def nearestFloat64 (neg : Bool) (num den : Nat) : Float64 × Bool :=
  if num = 0 then (Float64.finite neg 0 0, false)
  else
    let e1 : Int := (bitLength num num : Int) - (bitLength den den : Int) - 52
    let e2 : Int :=
      if (scaleBy num den e1).1 / (scaleBy num den e1).2 < 2 ^ 52 then e1 - 1 else e1
    let e : Int := if e2 < -1074 then -1074 else e2
    let m := roundHalfEven (scaleBy num den e).1 (scaleBy num den e).2
    let m1 : Nat := if m = 2 ^ 53 then 2 ^ 52 else m
    let e3 : Int := if m = 2 ^ 53 then e + 1 else e
    if 971 < e3 then (Float64.inf neg, true)
    else if m1 = 0 then (Float64.finite neg 0 0, false)
    else (Float64.finite neg m1 e3, false)

/-- Go `strconv.ParseFloat(lit, 64)` on a literal of the JSON number grammar:
the nearest `float64`, and whether a range error (`ErrRange`) is reported. -/
def ParseFloat (lit : Str) : Float64 × Bool :=
  let d := readDecimal lit
  if 0 ≤ d.exp10 then nearestFloat64 d.neg (d.coeff * 10 ^ d.exp10.toNat) 1
  else nearestFloat64 d.neg d.coeff (10 ^ (-d.exp10).toNat)

/-- The character of a decimal digit (`byte(d) + '0'`). -/
def digitChar (d : Nat) : Char := Char.ofNat (48 + d)

/-- Decimal digits of `n`, most significant first, prepended to `acc`; nothing
for 0.  The first argument is fuel. -/
def natDigitsAux : Nat → Nat → Str → Str
  | 0, _, acc => acc
  | fuel + 1, n, acc =>
    if n = 0 then acc else natDigitsAux fuel (n / 10) (digitChar (n % 10) :: acc)

/-- Decimal digits of `n`, most significant first; empty for 0. -/
def natDigits (n : Nat) : Str := natDigitsAux n n []

/-- Removes trailing zero digits. -/
def trimZeros (ds : Str) : Str :=
  (ds.reverse.dropWhile (fun c => c = '0')).reverse

/-- The decimal digits of a number and the position of its decimal point: the
value is `0.d₁d₂…dₙ * 10^dp` (`decimalSlice` of `strconv`). -/
structure Digits where
  d : Str
  dp : Int
  deriving DecidableEq, Repr

/-- The digits of `q * 10^k`, trailing zeros trimmed; no digits and `dp = 0`
for zero (`trim`). -/
def mkDigits (q : Nat) (k : Int) : Digits :=
  if trimZeros (natDigits q) = [] then { d := [], dp := 0 }
  else { d := trimZeros (natDigits q), dp := ((natDigits q).length : Int) + k }

/-- The search of `roundShortest`, over exact integers.  The value is `v / den`
and the rounding interval is `lo / den .. hi / den` (closed when `incl`).  At
the decimal position `k` the value is truncated to `q * 10^k`; the first
position, from the top, where `q * 10^k` or `(q + 1) * 10^k` lies in the
interval decides: if both do, the nearer one (ties to even `q`), otherwise
the one that does.  The first argument is the number of positions left. -/
def shortestSearch : Nat → Int → Nat → Nat → Nat → Nat → Bool → Digits
  | 0, k, v, _, _, den, _ =>
    let a : Nat := if 0 ≤ k then 1 else 10 ^ (-k).toNat
    let b : Nat := if 0 ≤ k then 10 ^ k.toNat else 1
    mkDigits (v * a / (den * b)) k
  | n + 1, k, v, lo, hi, den, incl =>
    let a : Nat := if 0 ≤ k then 1 else 10 ^ (-k).toNat
    let b : Nat := if 0 ≤ k then 10 ^ k.toNat else 1
    let u := den * b
    let q := v * a / u
    let okdown : Bool := lo * a < q * u || (incl && lo * a = q * u)
    let okup : Bool := (q + 1) * u < hi * a || (incl && (q + 1) * u = hi * a)
    if okdown && okup then
      let r := v * a - q * u
      if 2 * r < u then mkDigits q k
      else if u < 2 * r then mkDigits (q + 1) k
      else if q % 2 = 0 then mkDigits q k else mkDigits (q + 1) k
    else if okdown then mkDigits q k
    else if okup then mkDigits (q + 1) k
    else shortestSearch n (k - 1) v lo hi den incl

/-- The shortest decimal digits that identify the finite value `mant * 2^exp`
among the `float64` values (`strconv` with precision -1). -/
def shortestDigits (mant : Nat) (exp : Int) : Digits :=
  if mant = 0 then { d := [], dp := 0 }
  else
    let s : Int := exp - 2
    let den : Nat := if 0 ≤ s then 1 else 2 ^ (-s).toNat
    let f : Nat := if 0 ≤ s then 2 ^ s.toNat else 1
    let lo : Nat := if mant = 2 ^ 52 ∧ -1074 < exp then 4 * mant - 1 else 4 * mant - 2
    let top : Nat := (natDigits ((4 * mant + 2) * f / den)).length
    let low : Nat := if 0 ≤ s then 0 else (-s).toNat
    shortestSearch (top + low) (top : Int) (4 * mant * f) (lo * f) ((4 * mant + 2) * f) den
      (mant % 2 = 0)

/-- Go `%e` formatting of shortest digits (`fmtE` with `prec = nd - 1`): one
digit, the remaining digits after a point, and the exponent with a sign and at
least two digits. -/
def fmtE (neg : Bool) (ds : Digits) : Str :=
  let sign : Str := if neg then ['-'] else []
  let first : Str := [ds.d.headD '0']
  let more : Str := if 1 < ds.d.length then '.' :: ds.d.drop 1 else []
  let e : Int := if ds.d = [] then 0 else ds.dp - 1
  let esign : Char := if e < 0 then '-' else '+'
  let ea : Nat := e.natAbs
  let edigits : Str := if ea < 10 then ['0', digitChar ea] else natDigits ea
  sign ++ first ++ more ++ 'e' :: esign :: edigits

/-- Go `%f` formatting of shortest digits (`fmtF` with
`prec = max (nd - dp) 0`): the integer part, padded with zeros, and the
fractional digits, if any, after a point. -/
def fmtF (neg : Bool) (ds : Digits) : Str :=
  let sign : Str := if neg then ['-'] else []
  let ip : Str :=
    if 0 < ds.dp then
      ds.d.take ds.dp.toNat ++ List.replicate (ds.dp.toNat - ds.d.length) '0'
    else ['0']
  let fp : Str :=
    if ds.dp < (ds.d.length : Int) then
      '.' :: (List.replicate (-ds.dp).toNat '0' ++ ds.d.drop ds.dp.toNat)
    else []
  sign ++ ip ++ fp

/-- The clean-up of `encoding/json`: an exponent `e-09` is written `e-9`. -/
def cleanExp (b : Str) : Str :=
  match b.reverse with
  | d :: z :: s :: e :: r =>
    if e = 'e' ∧ (s = '-' ∨ s = '+') ∧ z = '0' then (d :: s :: e :: r).reverse else b
  | _ => b

/-- Whether `m1 * 2^e1 < m2 * 2^e2`. -/
def ltScaled (m1 : Nat) (e1 : Int) (m2 : Nat) (e2 : Int) : Bool :=
  if e1 ≤ e2 then m1 < m2 * 2 ^ (e2 - e1).toNat else m1 * 2 ^ (e1 - e2).toNat < m2

/-- The `float64` constant `1e-6` (`0x1.0c6f7a0b5ed8dp-20`). -/
def tinyMant : Nat := 4722366482869645

/-- The binary exponent of the constant `1e-6`. -/
def tinyExp : Int := -72

/-- The `float64` constant `1e21`, which is exact: `10^21 = 5^21 * 2^21`. -/
def hugeMant : Nat := 5 ^ 21

/-- The binary exponent of the constant `1e21`. -/
def hugeExp : Int := 21

/-- Go `floatEncoder.encode` of `encoding/json` for a finite `float64`: `%e`
when the magnitude is below `1e-6` or at least `1e21` (and not zero), `%f`
otherwise, with the shortest digits, and the exponent cleaned up. -/
def formatFloat (neg : Bool) (mant : Nat) (exp : Int) : Str :=
  if mant ≠ 0 ∧ (ltScaled mant exp tinyMant tinyExp ∨ ¬ ltScaled mant exp hugeMant hugeExp) then
    cleanExp (fmtE neg (shortestDigits mant exp))
  else fmtF neg (shortestDigits mant exp)

/-! ## `Transaction` and its JSON encoding (`encoding/json`) -/

/-- The record `Transaction` of `main.go`, with the JSON keys `amount`,
`category` and `type`. -/
structure Transaction where
  Amount : Float64
  Category : Str
  Type_ : Str
  deriving DecidableEq, Repr

/-- The value of `&Transaction{}`: every field has its zero value. -/
def Transaction.empty : Transaction :=
  { Amount := Float64.zero, Category := [], Type_ := [] }

/-- The errors of `encoding/json` that the program can meet. -/
inductive JsonError where
  | SyntaxError
  | UnmarshalTypeError
  | UnsupportedValueError
  deriving DecidableEq, Repr

/-- The fields of `Transaction`. -/
inductive Field where
  | amount
  | category
  | type_
  deriving DecidableEq, Repr

/-- The JSON key of a field (its struct tag). -/
def Field.key : Field → Str
  | Field.amount => "amount".toList
  | Field.category => "category".toList
  | Field.type_ => "type".toList

/-- The field an object key is stored into: the field whose key is equal, or
else equal up to letter case (the three keys hold plain ASCII letters only,
for which the folding of `encoding/json` is the ASCII one). -/
def fieldOf (k : Str) : Option Field :=
  if k = Field.amount.key then some Field.amount
  else if k = Field.category.key then some Field.category
  else if k = Field.type_.key then some Field.type_
  else if k.map Char.toLower = Field.amount.key then some Field.amount
  else if k.map Char.toLower = Field.category.key then some Field.category
  else if k.map Char.toLower = Field.type_.key then some Field.type_
  else none

/-- Stores one JSON value into a field (the decoder for a `float64` or
`string` target); the second component tells whether an error is reported.
`null` leaves the field as it is.  A value of the wrong JSON type leaves the
field as it is and reports an `UnmarshalTypeError`.  A number is stored into
`Amount` as `ParseFloat` returns it: the nearest `float64`, or, when the
number is outside the `float64` range, the infinity of its sign, stored
before the range error is reported. -/
def storeField (t : Transaction) : Field → JValue → Transaction × Bool
  | _, JValue.null => (t, false)
  | Field.amount, JValue.num lit =>
    ({ t with Amount := (ParseFloat lit).1 }, (ParseFloat lit).2)
  | Field.category, JValue.str s => ({ t with Category := s }, false)
  | Field.type_, JValue.str s => ({ t with Type_ := s }, false)
  | _, _ => (t, true)

/-- Decodes one object member: an unknown key is skipped, a known one is
stored; the first error is the one kept (`saveError`). -/
def storeMember (st : Transaction × Option JsonError) (m : Str × JValue) :
    Transaction × Option JsonError :=
  match fieldOf m.1 with
  | none => st
  | some f =>
    ((storeField st.1 f m.2).1,
      if st.2 = none ∧ (storeField st.1 f m.2).2 then some JsonError.UnmarshalTypeError
      else st.2)

/-- Go `json.Unmarshal(data, t)` for `t : *Transaction`: the record after the
call and the error returned.  A text that is not valid JSON leaves the record
untouched (`checkValid` runs first); a value that is not an object stores
nothing; an object is decoded member by member, in order. -/
def Unmarshal (data : Str) (t : Transaction) : Transaction × Option JsonError :=
  match parseJSON data with
  | none => (t, some JsonError.SyntaxError)
  | some (JValue.obj ms) => ms.foldl storeMember (t, none)
  | some JValue.null => (t, none)
  | some _ => (t, some JsonError.UnmarshalTypeError)

/-- The lower-case hexadecimal digit of `n < 16`. -/
def hexDigit (n : Nat) : Char :=
  if n < 10 then Char.ofNat (48 + n) else Char.ofNat (87 + n)

/-- The bytes below 0x80 that `json.Marshal` copies unescaped (`htmlSafeSet`):
printable ASCII except the quote, the backslash and the HTML characters. -/
def htmlSafe (c : Char) : Bool :=
  decide (0x20 ≤ c.toNat) && c != '"' && c != '\\' && c != '<' && c != '>' && c != '&'

/-- The encoding of one character inside a string literal (`appendString`
with `escapeHTML`). -/
def escapeChar (c : Char) : Str :=
  if c.toNat < 0x80 then
    if htmlSafe c then [c]
    else if c = '\\' ∨ c = '"' then ['\\', c]
    else if c = Char.ofNat 8 then ['\\', 'b']
    else if c = Char.ofNat 12 then ['\\', 'f']
    else if c = '\n' then ['\\', 'n']
    else if c = '\r' then ['\\', 'r']
    else if c = '\t' then ['\\', 't']
    else ['\\', 'u', '0', '0', hexDigit (c.toNat / 16), hexDigit (c.toNat % 16)]
  else if c.toNat = 0x2028 ∨ c.toNat = 0x2029 then
    ['\\', 'u', '2', '0', '2', hexDigit (c.toNat % 16)]
  else [c]

/-- The characters of a string, escaped, with the closing quote. -/
def escapeTail : Str → Str
  | [] => ['"']
  | c :: cs => escapeChar c ++ escapeTail cs

/-- Go `json.Marshal` of a string: the quoted, escaped literal
(`appendString`). -/
def appendString (s : Str) : Str := '"' :: escapeTail s

/-- Go `json.Marshal(t)` for `t : *Transaction`: the object with the three
keys in the order of the fields, or `UnsupportedValueError` when `Amount` is
an infinity or NaN. -/
def Marshal (t : Transaction) : Except JsonError Str :=
  match t.Amount with
  | Float64.finite neg mant exp =>
    Except.ok ('{' :: (appendString Field.amount.key ++ ':' :: (formatFloat neg mant exp ++
      ',' :: (appendString Field.category.key ++ ':' :: (appendString t.Category ++
      ',' :: (appendString Field.type_.key ++ ':' :: (appendString t.Type_ ++ ['}'])))))))
  | _ => Except.error JsonError.UnsupportedValueError

/-! ## The program: `main`, `upload`, `extractText`, `extractTransaction` -/

/-- A Go `error` value, kept as its message. -/
structure GoError where
  msg : Str
  deriving DecidableEq, Repr

/-- The uploaded file as `c.FormFile` returns it (`multipart.FileHeader`). -/
structure FileHeader where
  Filename : Str
  deriving DecidableEq, Repr

/-- The request of the transcription call (`openai.AudioRequest`). -/
structure AudioRequest where
  Model : Str
  FilePath : Str
  deriving DecidableEq, Repr

/-- One message of a chat request (`openai.ChatCompletionMessage`). -/
structure ChatCompletionMessage where
  Role : Str
  Content : Str
  deriving DecidableEq, Repr

/-- The request of the completion call (`openai.ChatCompletionRequest`), with
the fields `extractTransaction` sets (`Temperature` is the constant 1, `Stop`
is `nil`). -/
structure ChatCompletionRequest where
  Model : Str
  Messages : List ChatCompletionMessage
  MaxTokens : Nat
  Temperature : Nat
  Stop : List Str
  N : Nat
  deriving DecidableEq, Repr

/-- The constant `openai.Whisper1`. -/
def Whisper1 : Str := "whisper-1".toList

/-- The constant `openai.GPT3Dot5Turbo`. -/
def GPT3Dot5Turbo : Str := "gpt-3.5-turbo".toList

/-- The constant `openai.ChatMessageRoleSystem`. -/
def ChatMessageRoleSystem : Str := "system".toList

/-- The constant `openai.ChatMessageRoleUser`. -/
def ChatMessageRoleUser : Str := "user".toList

/-- The constant `http.StatusOK`. -/
def StatusOK : Nat := 200

/-- The collaborators of the handler, as stubs: what each call returns.
`FormFile`, `Open`, `Create` and `Copy` are the HTTP framework and the file
system (`Open`, `Create`, `Copy` give the error, if any); the two OpenAI
calls get the API key of the client and the request, and return the
transcribed text, respectively the message contents of `resp.Choices`, or an
error.  `schema` is the embedded file `schema.json`. -/
structure World where
  FormFile : Str → Except GoError FileHeader
  Open : FileHeader → Option GoError
  Create : Str → Option GoError
  Copy : Str → Option GoError
  CreateTranscription : Str → AudioRequest → Except GoError Str
  CreateChatCompletion : Str → ChatCompletionRequest → Except GoError (List Str)
  schema : Str

/-- The package-level variables `apiKey` and `prompt`. -/
structure Globals where
  apiKey : Str
  prompt : Str
  deriving DecidableEq, Repr

/-- What the handler does to the outside, in order. -/
inductive Event where
  | create (path : Str)
  | copy (path : Str)
  | transcription (req : AudioRequest)
  | completion (req : ChatCompletionRequest)
  | println (text : Str)
  | respond (status : Nat) (body : Str)
  | closeDst
  | closeSrc
  deriving DecidableEq, Repr

/-- The three calls of `log.Fatal` in `upload`, by the call they follow. -/
inductive FatalSite where
  | extractText
  | extractTransaction
  | marshal
  deriving DecidableEq, Repr

/-- How a call of the handler ends: it returns an error to the HTTP layer, it
returns after writing a response, the process exits (`log.Fatal`, at one of
its three sites), or the goroutine panics. -/
inductive Outcome where
  | returned (err : GoError)
  | responded (status : Nat) (body : Str)
  | fatal (site : FatalSite) (msg : Str)
  | panicked (msg : Str)
  deriving DecidableEq, Repr

/-- The result of a Go function that returns `(value, error)` or panics. -/
inductive Ret (α : Type) where
  | value (a : α)
  | error (err : GoError)
  | panic (msg : Str)
  deriving DecidableEq, Repr

/-- The end of one call of `upload`. -/
structure Result where
  outcome : Outcome
  events : List Event
  globals : Globals

/-- The text `upload` assigns to `prompt`. -/
def buildPrompt (schema : Str) : Str :=
  "You are a helpful assistant extracting a personal transaction from text. ".toList ++
  "From the given text, create a valid JSON representation that strictly follows this schema:\n\n".toList ++
  schema ++ "\n\n".toList ++
  "If no transaction can be found return an empty string. Omit null fields. Return JSON only. The JSON object:\n\n".toList

/-- The message of the runtime panic of an index expression out of range. -/
def indexOutOfRange : Str := "runtime error: index out of range [0] with length 0".toList

/-- `extractText` of `main.go`: the transcription call and its events. -/
def extractText (w : World) (g : Globals) (path : Str) : Except GoError Str × List Event :=
  let req : AudioRequest := { Model := Whisper1, FilePath := path }
  match w.CreateTranscription g.apiKey req with
  | Except.error err => (Except.error err, [Event.transcription req])
  | Except.ok text => (Except.ok text, [Event.transcription req])

/-- The request `extractTransaction` builds from the global `prompt` and its
argument. -/
def completionRequest (g : Globals) (s : Str) : ChatCompletionRequest :=
  { Model := GPT3Dot5Turbo,
    Messages := [{ Role := ChatMessageRoleSystem, Content := g.prompt },
                 { Role := ChatMessageRoleUser, Content := s }],
    MaxTokens := 2000,
    Temperature := 1,
    Stop := [],
    N := 1 }

/-- `extractTransaction` of `main.go`: the completion call, the first
candidate (`resp.Choices[0]`, which panics on an empty list), the print, and
the unchecked `json.Unmarshal` into a fresh record. -/
def extractTransaction (w : World) (g : Globals) (s : Str) : Ret Transaction × List Event :=
  let req := completionRequest g s
  match w.CreateChatCompletion g.apiKey req with
  | Except.error err => (Ret.error err, [Event.completion req])
  | Except.ok choices =>
    match choices with
    | [] => (Ret.panic indexOutOfRange, [Event.completion req])
    | completion :: _ =>
      (Ret.value (Unmarshal completion Transaction.empty).1,
        [Event.completion req, Event.println completion])

/-- The message `log.Fatal` prints for an error of `encoding/json`. -/
def JsonError.text : JsonError → Str
  | JsonError.SyntaxError => "json: syntax error".toList
  | JsonError.UnmarshalTypeError => "json: cannot unmarshal".toList
  | JsonError.UnsupportedValueError => "json: unsupported value".toList

/-- The body `c.JSON` writes for a string: its JSON encoding followed by a
line feed (`json.NewEncoder(w).Encode`). -/
def encodeBody (s : Str) : Str := appendString s ++ ['\n']

/-- `upload` of `main.go`, from the globals before the call.  The deferred
`Close` calls run when the handler returns or panics, not on `log.Fatal`.
`c.JSON(http.StatusOK, string(buf))` writes the status and, as the body, the
JSON encoding of the string `buf` and a line feed. -/
def upload (w : World) (g : Globals) : Result :=
  match w.FormFile "file".toList with
  | Except.error err => { outcome := Outcome.returned err, events := [], globals := g }
  | Except.ok file =>
    match w.Open file with
    | some err => { outcome := Outcome.returned err, events := [], globals := g }
    | none =>
      let path := file.Filename
      match w.Create path with
      | some err =>
        { outcome := Outcome.returned err, events := [Event.create path, Event.closeSrc],
          globals := g }
      | none =>
        match w.Copy path with
        | some err =>
          { outcome := Outcome.returned err,
            events := [Event.create path, Event.copy path, Event.closeDst, Event.closeSrc],
            globals := g }
        | none =>
          match extractText w g path with
          | (Except.error err, ev1) =>
            { outcome := Outcome.fatal FatalSite.extractText err.msg,
              events := [Event.create path, Event.copy path] ++ ev1, globals := g }
          | (Except.ok transactionText, ev1) =>
            let g1 : Globals := { g with prompt := buildPrompt w.schema }
            match extractTransaction w g1 transactionText with
            | (Ret.error err, ev2) =>
              { outcome := Outcome.fatal FatalSite.extractTransaction err.msg,
                events := [Event.create path, Event.copy path] ++ ev1 ++ ev2, globals := g1 }
            | (Ret.panic msg, ev2) =>
              { outcome := Outcome.panicked msg,
                events := [Event.create path, Event.copy path] ++ ev1 ++ ev2 ++
                  [Event.closeDst, Event.closeSrc],
                globals := g1 }
            | (Ret.value transaction, ev2) =>
              match Marshal transaction with
              | Except.error err =>
                { outcome := Outcome.fatal FatalSite.marshal err.text,
                  events := [Event.create path, Event.copy path] ++ ev1 ++ ev2, globals := g1 }
              | Except.ok buf =>
                { outcome := Outcome.responded StatusOK (encodeBody buf),
                  events := [Event.create path, Event.copy path] ++ ev1 ++ ev2 ++
                    [Event.respond StatusOK (encodeBody buf), Event.closeDst, Event.closeSrc],
                  globals := g1 }

/-- What `main` does, in order. -/
inductive Startup where
  | fatal (msg : Str)
  | use (middleware : Str)
  | post (path : Str)
  | start (address : Str)
  deriving DecidableEq, Repr

/-- Go `os.Getenv`: the value of the variable, empty when it is not set. -/
def Getenv (env : Str → Option Str) (key : Str) : Str :=
  match env key with
  | some v => v
  | none => []

/-- `main` of `main.go` in the process environment `env`: the value given to
`apiKey` and the steps taken, up to the start of the listener. -/
def main (env : Str → Option Str) : Str × List Startup :=
  let apiKey := Getenv env "OPENAI_API_KEY".toList
  if apiKey = [] then (apiKey, [Startup.fatal "api key not found".toList])
  else
    (apiKey,
      [Startup.use "Logger".toList, Startup.use "Recover".toList, Startup.use "CORS".toList,
       Startup.post "/upload".toList, Startup.start ":1323".toList])

/-! ## Example inputs -/

/-- A world in which the upload is stored without error as `voice.mp3`, the
transcription call returns `text` and the completion call returns `reply`. -/
def stubWorld (text : Except GoError Str) (reply : Except GoError (List Str)) : World :=
  { FormFile := fun _ => Except.ok { Filename := "voice.mp3".toList },
    Open := fun _ => none,
    Create := fun _ => none,
    Copy := fun _ => none,
    CreateTranscription := fun _ _ => text,
    CreateChatCompletion := fun _ _ => reply,
    schema := "\x7b\"type\":\"object\"\x7d".toList }

/-- The globals after `main` has read the key `sk-test`. -/
def stubGlobals : Globals := { apiKey := "sk-test".toList, prompt := [] }

/-- An error of a collaborator. -/
def stubError : GoError := { msg := "connection refused".toList }

/-- Whether an event is a call of the transcription or completion service. -/
def Event.isServiceCall : Event → Bool
  | Event.transcription _ => true
  | Event.completion _ => true
  | _ => false

/-- Whether an event is the writing of a response. -/
def Event.isRespond : Event → Bool
  | Event.respond _ _ => true
  | _ => false

/-- Whether an event is the creation of the destination file. -/
def Event.isCreate : Event → Bool
  | Event.create _ => true
  | _ => false

/-- Whether an event is a call of the completion service. -/
def Event.isCompletion : Event → Bool
  | Event.completion _ => true
  | _ => false

/-- Whether a step of `main` registers a route or starts the listener. -/
def Startup.serves : Startup → Bool
  | Startup.post _ => true
  | Startup.start _ => true
  | _ => false

/-- Whether a step of `main` is a fatal exit. -/
def Startup.isFatal : Startup → Bool
  | Startup.fatal _ => true
  | _ => false

/-! ## Predicates used in the statements -/

/-- Every character is a decimal digit. -/
def AllDigits (ds : Str) : Prop := ∀ c ∈ ds, c.isDigit = true

/-- The input does not start with a character satisfying `p`. -/
def HeadNot (p : Char → Bool) (t : Str) : Prop := ∀ c r, t = c :: r → p c = false

/-- An integer part: `0`, or digits that start with a non-zero digit. -/
def IsInt (ip : Str) : Prop :=
  ip = ['0'] ∨ ∃ c ds, ip = c :: ds ∧ c.isDigit = true ∧ c ≠ '0' ∧ AllDigits ds

/-- A fraction: nothing, or a point and at least one digit. -/
def IsFrac (fp : Str) : Prop :=
  fp = [] ∨ ∃ ds, fp = '.' :: ds ∧ ds ≠ [] ∧ AllDigits ds

/-- An exponent: nothing, or `e`/`E`, an optional sign and at least one digit. -/
def IsExp (ep : Str) : Prop :=
  ep = [] ∨ ∃ e s ds, ep = e :: (s ++ ds) ∧ (e = 'e' ∨ e = 'E') ∧
    (s = [] ∨ s = ['+'] ∨ s = ['-']) ∧ ds ≠ [] ∧ AllDigits ds

/-- A number literal of the JSON grammar. -/
def IsNumber (lit : Str) : Prop :=
  ∃ sign ip fp ep, lit = sign ++ (ip ++ (fp ++ ep)) ∧ (sign = [] ∨ sign = ['-']) ∧
    IsInt ip ∧ IsFrac fp ∧ IsExp ep

/-- A character that can continue a number literal. -/
def numberStop (c : Char) : Bool := c.isDigit || c = '.' || c = 'e' || c = 'E'

/-- Well-formed digits: decimal digits only, not starting with `0`, and the
point at 0 when there are none. -/
def Digits.WF (ds : Digits) : Prop :=
  AllDigits ds.d ∧ (ds.d = [] → ds.dp = 0) ∧ (∀ c t, ds.d = c :: t → c ≠ '0')

/-- Whether a JSON value has the JSON type a field accepts: a number for
`amount`, a string for `category` and `type`. -/
def wellTyped : Field → JValue → Bool
  | Field.amount, JValue.num _ => true
  | Field.category, JValue.str _ => true
  | Field.type_, JValue.str _ => true
  | _, _ => false

/-- The value of the last member of an object that is addressed to the field
`f` (by its key, up to letter case) and has the type the field accepts. -/
def lastWellTyped (f : Field) (ms : List (Str × JValue)) : Option JValue :=
  ((ms.filter (fun m => fieldOf m.1 = some f && wellTyped f m.2)).map Prod.snd).getLast?

/-- The number a field of type `float64` takes from a stored value: what
`ParseFloat` returns for the literal, an infinity when it is out of range. -/
def amountOf : Option JValue → Float64 → Float64
  | some (JValue.num lit), _ => (ParseFloat lit).1
  | _, old => old

/-- The text a field of type `string` takes from a stored value. -/
def textOf : Option JValue → Str → Str
  | some (JValue.str s), _ => s
  | _, old => old

/-- Whether a JSON value is an object. -/
def JValue.isObject : JValue → Bool
  | JValue.obj _ => true
  | _ => false

/-- The upload was read from the form and stored: `FormFile`, `Open`,
`os.Create` and `io.Copy` all succeeded. -/
def Stored (w : World) (file : FileHeader) : Prop :=
  w.FormFile "file".toList = Except.ok file ∧ w.Open file = none ∧
    w.Create file.Filename = none ∧ w.Copy file.Filename = none

/-- The upload was stored and the transcription call returned `text`. -/
def Transcribed (w : World) (g : Globals) (file : FileHeader) (text : Str) : Prop :=
  Stored w file ∧
    w.CreateTranscription g.apiKey { Model := Whisper1, FilePath := file.Filename }
      = Except.ok text

/-- The request reached the extraction step and the completion call returned
candidates, the first with the content `reply`. -/
def Replied (w : World) (g : Globals) (file : FileHeader) (text reply : Str) : Prop :=
  Transcribed w g file text ∧
    ∃ more, w.CreateChatCompletion g.apiKey
      (completionRequest { g with prompt := buildPrompt w.schema } text)
        = Except.ok (reply :: more)

/-- The JSON text of a finite `float64` (nothing for the other values, which
`json.Marshal` rejects). -/
def Float64.text : Float64 → Str
  | Float64.finite neg mant exp => formatFloat neg mant exp
  | _ => []

/-- What a successful scan with some fuel says: input was consumed, and any
fuel of at least the number of characters consumed gives the same result. -/
def FuelFree {α : Type} (f : Nat → Nat → Str → Option (α × Str)) (n : Nat) : Prop :=
  ∀ d cs a r, f n d cs = some (a, r) →
    r.length < cs.length ∧ ∀ m, cs.length - r.length ≤ m → f m d cs = some (a, r)

/-! ## Lemmas: reading back what the encoder writes -/

theorem hexVal_hexDigit (k : Nat) (h : k < 16) : hexVal (hexDigit k) = some k := by
  interval_cases k <;> decide

theorem scanUnits_plain (c : Char) (cs : Str) (h1 : c ≠ '"') (h2 : c ≠ '\\')
    (h3 : ¬ c.toNat < 0x20) : scanUnits (c :: cs) = pushUnit c.toNat (scanUnits cs) := by
  rw [scanUnits.eq_def]
  simp only [if_neg h1, if_neg h2, if_neg h3]

theorem scanUnits_simple (e ch : Char) (cs : Str) (h : simpleEscape e = some ch) (hu : e ≠ 'u') :
    scanUnits ('\\' :: e :: cs) = pushUnit ch.toNat (scanUnits cs) := by
  rw [scanUnits.eq_def]
  simp only [if_neg hu, h]
  simp

theorem scanUnits_unicode (h1 h2 h3 h4 : Char) (r : Nat) (cs : Str)
    (h : hex4 h1 h2 h3 h4 = some r) :
    scanUnits ('\\' :: 'u' :: h1 :: h2 :: h3 :: h4 :: cs) = pushUnit r (scanUnits cs) := by
  rw [scanUnits.eq_def]
  simp only [h, if_true]
  simp

theorem decodeUnits_plain (a : Nat) (rest : List Nat) (h : isSurrogate a = false) :
    decodeUnits (a :: rest) = Char.ofNat a :: decodeUnits rest := by
  rw [decodeUnits.eq_def]
  simp [h]

theorem char_toNat_ne {c d : Char} (h : c.toNat ≠ d.toNat) : c ≠ d := by
  intro e; exact h (by rw [e])

/-- One escaped character scans back to its code point. -/
theorem scanUnits_escapeChar (c : Char) (t : Str) :
    scanUnits (escapeChar c ++ t) = pushUnit c.toNat (scanUnits t) := by
  unfold escapeChar
  by_cases h1 : c.toNat < 0x80
  · rw [if_pos h1]
    by_cases h2 : htmlSafe c = true
    · rw [if_pos h2]
      simp only [htmlSafe, Bool.and_eq_true, decide_eq_true_eq, bne_iff_ne, ne_eq] at h2
      obtain ⟨⟨⟨⟨⟨ha, hb⟩, hc⟩, hd⟩, he⟩, hf⟩ := h2
      exact scanUnits_plain c t hb hc (by omega)
    · rw [if_neg h2]
      by_cases h3 : c = '\\' ∨ c = '"'
      · rw [if_pos h3]
        rcases h3 with h3 | h3 <;> subst h3 <;>
          exact scanUnits_simple _ _ t (by decide) (by decide)
      · rw [if_neg h3]
        by_cases h4 : c = Char.ofNat 8
        · rw [if_pos h4]; subst h4; exact scanUnits_simple _ _ t (by decide) (by decide)
        rw [if_neg h4]
        by_cases h5 : c = Char.ofNat 12
        · rw [if_pos h5]; subst h5; exact scanUnits_simple _ _ t (by decide) (by decide)
        rw [if_neg h5]
        by_cases h6 : c = '\n'
        · rw [if_pos h6]; subst h6; exact scanUnits_simple _ _ t (by decide) (by decide)
        rw [if_neg h6]
        by_cases h7 : c = '\r'
        · rw [if_pos h7]; subst h7; exact scanUnits_simple _ _ t (by decide) (by decide)
        rw [if_neg h7]
        by_cases h8 : c = '\t'
        · rw [if_pos h8]; subst h8; exact scanUnits_simple _ _ t (by decide) (by decide)
        rw [if_neg h8]
        have hx : hex4 '0' '0' (hexDigit (c.toNat / 16)) (hexDigit (c.toNat % 16)) = some c.toNat := by
          unfold hex4
          rw [hexVal_hexDigit _ (by omega), hexVal_hexDigit _ (by omega)]
          have : hexVal '0' = some 0 := by decide
          rw [this]
          simp only [Option.some.injEq]
          omega
        exact scanUnits_unicode _ _ _ _ _ t hx
  · rw [if_neg h1]
    by_cases h2 : c.toNat = 0x2028 ∨ c.toNat = 0x2029
    · rw [if_pos h2]
      have hx : hex4 '2' '0' '2' (hexDigit (c.toNat % 16)) = some c.toNat := by
        rcases h2 with h2 | h2 <;> rw [h2] <;> decide
      exact scanUnits_unicode _ _ _ _ _ t hx
    · rw [if_neg h2]
      refine scanUnits_plain c t ?_ ?_ (by omega)
      · apply char_toNat_ne; have : ('"' : Char).toNat = 34 := by decide
        omega
      · apply char_toNat_ne; have : ('\\' : Char).toNat = 92 := by decide
        omega

theorem scanUnits_escapeTail (s rest : Str) :
    scanUnits (escapeTail s ++ rest) = some (s.map Char.toNat, rest) := by
  induction s with
  | nil => 
    show scanUnits ('"' :: rest) = _
    rw [scanUnits.eq_def]; simp
  | cons c cs ih =>
    show scanUnits ((escapeChar c ++ escapeTail cs) ++ rest) = _
    rw [List.append_assoc, scanUnits_escapeChar, ih]
    rfl

theorem isSurrogate_toNat (c : Char) : isSurrogate c.toNat = false := by
  have := c.valid
  simp only [isSurrogate, Bool.and_eq_false_imp, decide_eq_true_eq, decide_eq_false_iff_not]
  intro h
  rcases this with h1 | ⟨h1, h2⟩
  · have : c.toNat < 0xD800 := h1
    omega
  · have : 0xDFFF < c.toNat := h1
    omega

theorem decodeUnits_map_toNat (s : Str) : decodeUnits (s.map Char.toNat) = s := by
  induction s with
  | nil => rfl
  | cons c cs ih =>
    rw [List.map_cons, decodeUnits_plain _ _ (isSurrogate_toNat c), ih, Char.ofNat_toNat]

/-- Roundtrip: the scanner reads back what `appendString` wrote. -/
theorem scanString_escapeTail (s rest : Str) :
    scanString (escapeTail s ++ rest) = some (s, rest) := by
  unfold scanString
  rw [scanUnits_escapeTail]
  simp only [decodeUnits_map_toNat]

theorem takeWhile_digits (ds t : Str) (hd : AllDigits ds) (ht : HeadNot Char.isDigit t) :
    (ds ++ t).takeWhile Char.isDigit = ds := by
  rw [List.takeWhile_append_of_pos hd]
  cases t with
  | nil => simp
  | cons c r => simp [List.takeWhile, ht c r rfl]

theorem dropWhile_digits (ds t : Str) (hd : AllDigits ds) (ht : HeadNot Char.isDigit t) :
    (ds ++ t).dropWhile Char.isDigit = t := by
  rw [List.dropWhile_append_of_pos hd]
  cases t with
  | nil => simp
  | cons c r => simp [List.dropWhile, ht c r rfl]

theorem scanInt_append (ip t : Str) (hi : IsInt ip) (ht : HeadNot Char.isDigit t) :
    scanInt (ip ++ t) = some (ip, t) := by
  rcases hi with rfl | ⟨c, ds, rfl, hc, hc0, hds⟩
  · simp [scanInt]
  · simp only [List.cons_append, scanInt, if_neg hc0, hc, if_true,
      takeWhile_digits ds t hds ht, dropWhile_digits ds t hds ht]

theorem scanFrac_append (fp t : Str) (hf : IsFrac fp) (ht : HeadNot Char.isDigit t)
    (ht2 : fp = [] → HeadNot (fun c => c = '.') t) :
    scanFrac (fp ++ t) = some (fp, t) := by
  rcases hf with rfl | ⟨ds, rfl, hne, hds⟩
  · cases t with
    | nil => rfl
    | cons c r =>
      have := ht2 rfl c r rfl
      simp only [decide_eq_false_iff_not] at this
      simp [scanFrac, this]
  · simp only [List.cons_append, scanFrac, if_true, takeWhile_digits ds t hds ht,
      dropWhile_digits ds t hds ht, if_neg hne]

theorem scanExp_append (ep t : Str) (he : IsExp ep) (ht : HeadNot Char.isDigit t)
    (ht2 : ep = [] → HeadNot (fun c => c = 'e' || c = 'E') t) :
    scanExp (ep ++ t) = some (ep, t) := by
  rcases he with rfl | ⟨e, s, ds, rfl, hee, hs, hne, hds⟩
  · cases t with
    | nil => rfl
    | cons c r =>
      have := ht2 rfl c r rfl
      simp only [Bool.or_eq_false_iff, decide_eq_false_iff_not] at this
      simp [scanExp, this]
  · have hsign : scanSign (s ++ (ds ++ t)) = (s, ds ++ t) := by
      rcases hs with rfl | rfl | rfl
      · cases ds with
        | nil => exact absurd rfl hne
        | cons d ds' =>
          have hd : d.isDigit = true := hds d (List.mem_cons_self _ _)
          have h1 : ¬ (d = '+' ∨ d = '-') := by
            rintro (rfl | rfl) <;> exact absurd hd (by decide)
          simp [scanSign, h1]
      · simp [scanSign]
      · simp [scanSign]
    simp only [List.cons_append, List.append_assoc, scanExp, if_pos hee, hsign,
      takeWhile_digits ds t hds ht, dropWhile_digits ds t hds ht, if_neg hne]

theorem isNumber_head (lit : Str) (h : IsNumber lit) :
    ∃ c r, lit = c :: r ∧ (c = '-' ∨ c.isDigit = true) := by
  obtain ⟨sign, ip, fp, ep, rfl, hs, hi, _, _⟩ := h
  rcases hs with rfl | rfl
  · rcases hi with rfl | ⟨c, ds, rfl, hc, _, _⟩
    · exact ⟨'0', _, rfl, Or.inr (by decide)⟩
    · exact ⟨c, _, rfl, Or.inr hc⟩
  · exact ⟨'-', _, rfl, Or.inl rfl⟩

/-- The scanner reads a number literal back, up to a character that cannot
continue it. -/
theorem scanNumber_append (lit t : Str) (h : IsNumber lit) (ht : HeadNot numberStop t) :
    scanNumber (lit ++ t) = some (lit, t) := by
  obtain ⟨sign, ip, fp, ep, rfl, hs, hi, hf, he⟩ := h
  have ht1 : HeadNot Char.isDigit t := by
    intro c r hc; have := ht c r hc
    simp only [numberStop, Bool.or_eq_false_iff] at this; exact this.1.1.1
  have ht2 : HeadNot (fun c => c = '.') t := by
    intro c r hc; have := ht c r hc
    simp only [numberStop, Bool.or_eq_false_iff] at this; simpa using this.1.1.2
  have ht3 : HeadNot (fun c => c = 'e' || c = 'E') t := by
    intro c r hc; have := ht c r hc
    simp only [numberStop, Bool.or_eq_false_iff] at this
    simp only [Bool.or_eq_false_iff]; exact ⟨this.1.2, this.2⟩
  -- the text after the exponent, the fraction, the integer part
  have hE : scanExp (ep ++ t) = some (ep, t) := scanExp_append ep t he ht1 (fun _ => ht3)
  have hep1 : HeadNot Char.isDigit (ep ++ t) := by
    rcases he with rfl | ⟨e, s, ds, rfl, hee, _, _, _⟩
    · simpa using ht1
    · intro c r hc
      simp only [List.cons_append, List.cons.injEq] at hc
      rcases hee with rfl | rfl <;> (rw [← hc.1]; decide)
  have hep2 : HeadNot (fun c => c = '.') (ep ++ t) := by
    rcases he with rfl | ⟨e, s, ds, rfl, hee, _, _, _⟩
    · simpa using ht2
    · intro c r hc
      simp only [List.cons_append, List.cons.injEq] at hc
      rcases hee with rfl | rfl <;> (rw [← hc.1]; decide)
  have hF : scanFrac (fp ++ (ep ++ t)) = some (fp, ep ++ t) :=
    scanFrac_append fp _ hf hep1 (fun _ => hep2)
  have hfp1 : HeadNot Char.isDigit (fp ++ (ep ++ t)) := by
    rcases hf with rfl | ⟨ds, rfl, _, _⟩
    · simpa using hep1
    · intro c r hc
      simp only [List.cons_append, List.cons.injEq] at hc
      rw [← hc.1]; decide
  have hI : scanInt (ip ++ (fp ++ (ep ++ t))) = some (ip, fp ++ (ep ++ t)) :=
    scanInt_append ip _ hi hfp1
  rcases hs with rfl | rfl
  · obtain ⟨c, r, hcr, hc⟩ : ∃ c r, ip = c :: r ∧ c ≠ '-' := by
      rcases hi with rfl | ⟨c, ds, rfl, hc, _, _⟩
      · exact ⟨'0', [], rfl, by decide⟩
      · refine ⟨c, ds, rfl, ?_⟩
        rintro rfl; exact absurd hc (by decide)
    have hI2 : scanInt (c :: (r ++ (fp ++ (ep ++ t)))) = some (ip, fp ++ (ep ++ t)) := by
      rw [← hI, hcr]; rfl
    simp only [List.nil_append, List.append_assoc, hcr, List.cons_append, scanNumber, if_neg hc,
      hI2, hF, hE]

  · simp only [List.cons_append, List.nil_append, List.append_assoc, scanNumber, if_true, hI, hF, hE]

theorem digitChar_isDigit (d : Nat) (h : d < 10) : (digitChar d).isDigit = true := by
  interval_cases d <;> decide

theorem digitChar_ne_zero (d : Nat) (h : d < 10) (h0 : d ≠ 0) : digitChar d ≠ '0' := by
  interval_cases d <;> first | exact absurd rfl h0 | decide

theorem natDigitsAux_allDigits (fuel n : Nat) (acc : Str) (h : AllDigits acc) :
    AllDigits (natDigitsAux fuel n acc) := by
  induction fuel generalizing n acc with
  | zero => exact h
  | succ f ih =>
    rw [natDigitsAux]
    split_ifs with h0
    · exact h
    · apply ih
      intro c hc
      rcases List.mem_cons.1 hc with rfl | hc
      · exact digitChar_isDigit _ (Nat.mod_lt _ (by norm_num))
      · exact h c hc

theorem natDigits_allDigits (n : Nat) : AllDigits (natDigits n) :=
  natDigitsAux_allDigits n n [] (fun _ h => absurd h (List.not_mem_nil _))

/-- The digits of a positive number start with a non-zero digit. -/
theorem natDigitsAux_head (fuel n : Nat) (acc : Str) (hf : n ≤ fuel) (hn : 0 < n) :
    ∃ c t, natDigitsAux fuel n acc = c :: t ∧ c ≠ '0' := by
  induction fuel generalizing n acc with
  | zero => omega
  | succ f ih =>
    rw [natDigitsAux, if_neg (by omega)]
    by_cases h10 : n / 10 = 0
    · rw [h10]
      have hlt : n < 10 := by omega
      have hmod : n % 10 = n := Nat.mod_eq_of_lt hlt
      refine ⟨digitChar (n % 10), acc, ?_, digitChar_ne_zero _ (Nat.mod_lt _ (by norm_num)) (by omega)⟩
      cases f with
      | zero => rfl
      | succ f' => rw [natDigitsAux, if_pos rfl]
    · exact ih (n / 10) _ (by omega) (by omega)

theorem natDigits_head (n : Nat) (hn : 0 < n) : ∃ c t, natDigits n = c :: t ∧ c ≠ '0' :=
  natDigitsAux_head n n [] le_rfl hn

theorem trimZeros_allDigits (ds : Str) (h : AllDigits ds) : AllDigits (trimZeros ds) := by
  intro c hc
  unfold trimZeros at hc
  rw [List.mem_reverse] at hc
  have := (List.dropWhile_sublist _).subset hc
  exact h c (List.mem_reverse.1 this)

theorem trimZeros_head (c : Char) (t : Str) (hc : c ≠ '0') :
    ∃ t', trimZeros (c :: t) = c :: t' := by
  unfold trimZeros
  rw [List.reverse_cons, List.dropWhile_append]
  split_ifs with h
  · refine ⟨[], ?_⟩
    simp [List.dropWhile, hc]
  · refine ⟨(List.dropWhile (fun c => decide (c = '0')) t.reverse).reverse, ?_⟩
    simp

theorem mkDigits_wf (q : Nat) (k : Int) : (mkDigits q k).WF := by
  unfold mkDigits
  split_ifs with h
  · exact ⟨fun _ hc => absurd hc (List.not_mem_nil _), fun _ => rfl, fun _ _ hc => by cases hc⟩
  · refine ⟨trimZeros_allDigits _ (natDigits_allDigits q), fun h' => absurd h' h, ?_⟩
    intro c t hct
    rcases Nat.eq_zero_or_pos q with rfl | hq
    · exact absurd rfl h
    · obtain ⟨c', t', he, hc'⟩ := natDigits_head q hq
      obtain ⟨t'', he'⟩ := trimZeros_head c' t' hc'
      rw [he] at hct
      simp only at hct
      rw [he'] at hct
      cases hct
      exact hc'

theorem shortestSearch_wf (n : Nat) (k : Int) (v lo hi den : Nat) (incl : Bool) :
    (shortestSearch n k v lo hi den incl).WF := by
  induction n generalizing k with
  | zero => exact mkDigits_wf _ _
  | succ n ih =>
    rw [shortestSearch]
    simp only
    split_ifs <;> first | exact mkDigits_wf _ _ | exact ih _

theorem shortestDigits_wf (mant : Nat) (exp : Int) : (shortestDigits mant exp).WF := by
  unfold shortestDigits
  by_cases h : mant = 0
  · rw [if_pos h]
    exact ⟨fun _ hc => absurd hc (List.not_mem_nil _), fun _ => rfl, fun _ _ hc => by cases hc⟩
  · rw [if_neg h]
    exact shortestSearch_wf _ _ _ _ _ _ _

theorem allDigits_replicate (n : Nat) : AllDigits (List.replicate n '0') := by
  intro c hc
  rw [List.eq_of_mem_replicate hc]; decide

theorem allDigits_append {a b : Str} (ha : AllDigits a) (hb : AllDigits b) : AllDigits (a ++ b) := by
  intro c hc
  rcases List.mem_append.1 hc with h | h
  · exact ha c h
  · exact hb c h

theorem allDigits_take {a : Str} (n : Nat) (ha : AllDigits a) : AllDigits (a.take n) :=
  fun c hc => ha c (List.mem_of_mem_take hc)

theorem allDigits_drop {a : Str} (n : Nat) (ha : AllDigits a) : AllDigits (a.drop n) :=
  fun c hc => ha c (List.mem_of_mem_drop hc)

/-- The `%f` form of well-formed digits is a number literal. -/
theorem fmtF_isNumber (neg : Bool) (ds : Digits) (h : ds.WF) : IsNumber (fmtF neg ds) := by
  obtain ⟨hd, hnil, hhead⟩ := h
  refine ⟨if neg then ['-'] else [],
    (if 0 < ds.dp then
      ds.d.take ds.dp.toNat ++ List.replicate (ds.dp.toNat - ds.d.length) '0'
    else ['0']),
    (if ds.dp < (ds.d.length : Int) then
      '.' :: (List.replicate (-ds.dp).toNat '0' ++ ds.d.drop ds.dp.toNat)
    else []), [], ?_, ?_, ?_, ?_, Or.inl rfl⟩
  · simp [fmtF]
  · cases neg <;> simp
  · by_cases hp : 0 < ds.dp
    · rw [if_pos hp]
      right
      cases hds : ds.d with
      | nil => have := hnil hds; omega
      | cons c t =>
        have hpos : ds.dp.toNat = (ds.dp.toNat - 1) + 1 := by omega
        refine ⟨c, t.take (ds.dp.toNat - 1) ++ List.replicate (ds.dp.toNat - (c :: t).length) '0',
          ?_, hd c (by rw [hds]; exact List.mem_cons_self _ _), hhead c t hds, ?_⟩
        · rw [hpos, List.take_succ_cons]; simp
        · apply allDigits_append
          · apply allDigits_take
            intro x hx; exact hd x (by rw [hds]; exact List.mem_cons_of_mem _ hx)
          · exact allDigits_replicate _
    · rw [if_neg hp]; exact Or.inl rfl
  · by_cases hp : ds.dp < (ds.d.length : Int)
    · rw [if_pos hp]
      right
      refine ⟨_, rfl, ?_, allDigits_append (allDigits_replicate _) (allDigits_drop _ hd)⟩
      intro hnil'
      rw [List.append_eq_nil] at hnil'
      obtain ⟨h1, h2⟩ := hnil'
      have h3 := List.drop_eq_nil_iff.1 h2
      have h4 : (-ds.dp).toNat = 0 := by simpa using h1
      omega
    · rw [if_neg hp]; exact Or.inl rfl

theorem natDigitsAux_append (fuel n : Nat) (acc : Str) :
    natDigitsAux fuel n acc = natDigitsAux fuel n [] ++ acc := by
  induction fuel generalizing n acc with
  | zero => rfl
  | succ f ih =>
    rw [natDigitsAux, natDigitsAux]
    split_ifs with h0
    · rfl
    · rw [ih (n / 10) (digitChar (n % 10) :: acc), ih (n / 10) [digitChar (n % 10)]]
      simp

/-- A number of at least two digits: a non-zero digit, digits, a last digit. -/
theorem natDigits_two (n : Nat) (hn : 10 ≤ n) :
    ∃ c m d, natDigits n = c :: (m ++ [d]) ∧ c ≠ '0' := by
  obtain ⟨f, rfl⟩ : ∃ f, n = f + 1 := ⟨n - 1, by omega⟩
  unfold natDigits
  rw [natDigitsAux, if_neg (by omega), natDigitsAux_append]
  obtain ⟨c, t, ht, hc⟩ := natDigitsAux_head f ((f + 1) / 10) [] (by omega) (by omega)
  exact ⟨c, t, _, by rw [ht]; rfl, hc⟩

theorem digit_not_sign (c : Char) (h : c.isDigit = true) : ¬ (c = '-' ∨ c = '+') := by
  rintro (rfl | rfl) <;> exact absurd h (by decide)

theorem digit_ne_e (c : Char) (h : c.isDigit = true) : c ≠ 'e' := by
  rintro rfl; exact absurd h (by decide)

/-- An exponent of two or more digits that does not start with `0` is left as
it is. -/
theorem cleanExp_long (X : Str) (s c1 dl : Char) (m : Str) (hc1 : c1 ≠ '0')
    (hd : AllDigits (c1 :: m)) :
    cleanExp (X ++ 'e' :: s :: c1 :: (m ++ [dl])) = X ++ 'e' :: s :: c1 :: (m ++ [dl]) := by
  have hrev : (X ++ 'e' :: s :: c1 :: (m ++ [dl])).reverse
      = dl :: (m.reverse ++ c1 :: s :: 'e' :: X.reverse) := by simp
  unfold cleanExp
  rw [hrev]
  cases hm : m.reverse with
  | nil =>
    simp only [List.nil_append]
    rw [if_neg (fun h => hc1 h.2.2)]
  | cons a y =>
    have ha : a.isDigit = true :=
      hd a (List.mem_cons_of_mem _ (List.mem_reverse.1 (by rw [hm]; exact List.mem_cons_self _ _)))
    cases y with
    | nil =>
      simp only [List.cons_append, List.nil_append]
      rw [if_neg (fun h => digit_not_sign c1 (hd c1 (List.mem_cons_self _ _)) h.2.1)]
    | cons y1 y' =>
      have hy1 : y1.isDigit = true :=
        hd y1 (List.mem_cons_of_mem _ (List.mem_reverse.1 (by rw [hm]; simp)))
      cases y' with
      | nil =>
        simp only [List.cons_append, List.nil_append]
        rw [if_neg (fun h => digit_ne_e c1 (hd c1 (List.mem_cons_self _ _)) h.1)]
      | cons y2 y'' =>
        have hy2 : y2.isDigit = true :=
          hd y2 (List.mem_cons_of_mem _ (List.mem_reverse.1 (by rw [hm]; simp)))
        simp only [List.cons_append]
        rw [if_neg (fun h => digit_ne_e y2 hy2 h.1)]

/-- An exponent `e-0d` or `e+0d` loses its zero. -/
theorem cleanExp_short (X : Str) (s d : Char) (hs : s = '-' ∨ s = '+') :
    cleanExp (X ++ ['e', s, '0', d]) = X ++ ['e', s, d] := by
  have hrev : (X ++ ['e', s, '0', d]).reverse = d :: '0' :: s :: 'e' :: X.reverse := by simp
  unfold cleanExp
  rw [hrev]
  rcases hs with rfl | rfl <;> simp

/-- A mantissa followed by an exponent as `%e` writes it, cleaned up, is a
number literal. -/
theorem cleanExp_isNumber (sign ip fp : Str) (e : Int) (hsign : sign = [] ∨ sign = ['-'])
    (hip : IsInt ip) (hfp : IsFrac fp) :
    IsNumber (cleanExp (sign ++ ip ++ fp ++ 'e' :: (if e < 0 then '-' else '+') ::
      (if e.natAbs < 10 then ['0', digitChar e.natAbs] else natDigits e.natAbs))) := by
  generalize hes : (if e < 0 then '-' else '+') = esign
  have hesign : esign = '-' ∨ esign = '+' := by
    rw [← hes]; by_cases h0 : e < 0
    · rw [if_pos h0]; exact Or.inl rfl
    · rw [if_neg h0]; exact Or.inr rfl
  by_cases h10 : e.natAbs < 10
  · rw [if_pos h10, cleanExp_short _ _ _ hesign]
    refine ⟨sign, ip, fp, ['e', esign, digitChar e.natAbs], by simp, hsign, hip, hfp, ?_⟩
    refine Or.inr ⟨'e', [esign], [digitChar e.natAbs], rfl, Or.inl rfl, ?_, by simp, ?_⟩
    · rcases hesign with h | h <;> simp [h]
    · intro c hc
      rw [List.mem_singleton.1 hc]
      exact digitChar_isDigit _ h10
  · rw [if_neg h10]
    obtain ⟨c, m, d, hnd, hc⟩ := natDigits_two e.natAbs (by omega)
    have hall := natDigits_allDigits e.natAbs
    rw [hnd] at hall ⊢
    rw [cleanExp_long _ _ _ _ _ hc
      (fun x hx => hall x (by
        rcases List.mem_cons.1 hx with h | h
        · rw [h]; exact List.mem_cons_self _ _
        · exact List.mem_cons_of_mem _ (List.mem_append_left _ h)))]
    refine ⟨sign, ip, fp, 'e' :: esign :: c :: (m ++ [d]), by simp, hsign, hip, hfp, ?_⟩
    refine Or.inr ⟨'e', [esign], c :: (m ++ [d]), rfl, Or.inl rfl, ?_, by simp, hall⟩
    rcases hesign with h | h <;> simp [h]

/-- The `%e` form of well-formed digits, cleaned up, is a number literal. -/
theorem fmtE_isNumber (neg : Bool) (ds : Digits) (h : ds.WF) :
    IsNumber (cleanExp (fmtE neg ds)) := by
  obtain ⟨hd, hnil, hhead⟩ := h
  have hip : IsInt [ds.d.headD '0'] := by
    cases hds : ds.d with
    | nil => exact Or.inl rfl
    | cons c t =>
      exact Or.inr ⟨c, [], rfl, hd c (by rw [hds]; exact List.mem_cons_self _ _), hhead c t hds,
        fun _ hx => absurd hx (List.not_mem_nil _)⟩
  have hfp : IsFrac (if 1 < ds.d.length then '.' :: ds.d.drop 1 else []) := by
    by_cases hl : 1 < ds.d.length
    · rw [if_pos hl]
      refine Or.inr ⟨_, rfl, ?_, allDigits_drop _ hd⟩
      intro h0
      have := List.drop_eq_nil_iff.1 h0
      omega
    · rw [if_neg hl]; exact Or.inl rfl
  have hsign : (if neg then ['-'] else []) = ([] : Str) ∨ (if neg then ['-'] else []) = ['-'] := by
    cases neg <;> simp
  exact cleanExp_isNumber _ _ _ (if ds.d = [] then 0 else ds.dp - 1) hsign hip hfp

/-- What `json.Marshal` writes for a finite `float64` is a number literal of
the JSON grammar. -/
theorem formatFloat_isNumber (neg : Bool) (mant : Nat) (exp : Int) :
    IsNumber (formatFloat neg mant exp) := by
  unfold formatFloat
  split_ifs
  · exact fmtE_isNumber neg _ (shortestDigits_wf mant exp)
  · exact fmtF_isNumber neg _ (shortestDigits_wf mant exp)

theorem skipSpace_of_not_space (c : Char) (r : Str) (h : isSpace c = false) :
    skipSpace (c :: r) = c :: r := by
  rw [skipSpace, h]; rfl

theorem parseValue_string (fuel depth : Nat) (s rest : Str) :
    parseValue (fuel + 1) depth (appendString s ++ rest) = some (JValue.str s, rest) := by
  show parseValue (fuel + 1) depth ('"' :: (escapeTail s ++ rest)) = _
  rw [parseValue]
  simp only [if_true, scanString_escapeTail]

theorem isNumber_skipSpace (lit rest : Str) (h : IsNumber lit) :
    skipSpace (lit ++ rest) = lit ++ rest := by
  obtain ⟨c, r, rfl, hc⟩ := isNumber_head lit h
  apply skipSpace_of_not_space
  rcases hc with rfl | hc
  · decide
  · simp only [Char.isDigit, Bool.and_eq_true, decide_eq_true_eq] at hc
    have h1 : c ≠ ' ' := by rintro rfl; revert hc; decide
    have h2 : c ≠ '\t' := by rintro rfl; revert hc; decide
    have h3 : c ≠ '\r' := by rintro rfl; revert hc; decide
    have h4 : c ≠ '\n' := by rintro rfl; revert hc; decide
    simp [isSpace, h1, h2, h3, h4]

theorem parseValue_number (fuel depth : Nat) (lit rest : Str) (h : IsNumber lit)
    (hr : HeadNot numberStop rest) :
    parseValue (fuel + 1) depth (lit ++ rest) = some (JValue.num lit, rest) := by
  obtain ⟨c, r, hcr, hc⟩ := isNumber_head lit h
  have hn := scanNumber_append lit rest h hr
  rw [hcr] at hn ⊢
  have h1 : c ≠ '"' := by
    rcases hc with rfl | hc
    · decide
    · rintro rfl; exact absurd hc (by decide)
  have h2 : c ≠ '[' := by
    rcases hc with rfl | hc
    · decide
    · rintro rfl; exact absurd hc (by decide)
  have h3 : c ≠ '{' := by
    rcases hc with rfl | hc
    · decide
    · rintro rfl; exact absurd hc (by decide)
  have h4 : c ≠ 't' := by
    rcases hc with rfl | hc
    · decide
    · rintro rfl; exact absurd hc (by decide)
  have h5 : c ≠ 'f' := by
    rcases hc with rfl | hc
    · decide
    · rintro rfl; exact absurd hc (by decide)
  have h6 : c ≠ 'n' := by
    rcases hc with rfl | hc
    · decide
    · rintro rfl; exact absurd hc (by decide)
  rw [List.cons_append] at hn ⊢
  rw [parseValue]
  simp only [if_neg h1, if_neg h2, if_neg h3, if_neg h4, if_neg h5, if_neg h6, hn]

/-- The last member of an object. -/
theorem parseMembers_last (fuel depth : Nat) (k V rest : Str) (v : JValue)
    (hV : skipSpace V = V) (hv : parseValue fuel depth V = some (v, '}' :: rest)) :
    parseMembers (fuel + 1) depth (appendString k ++ ':' :: V) = some ([(k, v)], rest) := by
  show parseMembers (fuel + 1) depth ('"' :: (escapeTail k ++ ':' :: V)) = _
  rw [parseMembers]
  simp only [ne_eq, not_true_eq_false, if_false, scanString_escapeTail]
  rw [skipSpace_of_not_space _ _ (by decide)]
  simp only [ne_eq, not_true_eq_false, if_false, hV, hv]
  rw [skipSpace_of_not_space _ _ (by decide)]
  simp

/-- A member followed by further members. -/
theorem parseMembers_cons (fuel depth : Nat) (k V T rest : Str) (v : JValue)
    (ms : List (Str × JValue))
    (hV : skipSpace V = V) (hv : parseValue fuel depth V = some (v, ',' :: T))
    (hT : skipSpace T = T) (ht : parseMembers fuel depth T = some (ms, rest)) :
    parseMembers (fuel + 1) depth (appendString k ++ ':' :: V) = some ((k, v) :: ms, rest) := by
  show parseMembers (fuel + 1) depth ('"' :: (escapeTail k ++ ':' :: V)) = _
  rw [parseMembers]
  simp only [ne_eq, not_true_eq_false, if_false, scanString_escapeTail]
  rw [skipSpace_of_not_space _ _ (by decide)]
  simp only [ne_eq, not_true_eq_false, if_false, hV, hv]
  rw [skipSpace_of_not_space _ _ (by decide)]
  simp only [if_true, hT, ht]

/-- An object whose members start directly after the brace. -/
theorem parseValue_object (fuel depth : Nat) (T rest : Str) (ms : List (Str × JValue))
    (hd : depth < maxNestingDepth)
    (hm : parseMembers fuel (depth + 1) ('"' :: T) = some (ms, rest)) :
    parseValue (fuel + 1) depth ('{' :: '"' :: T) = some (JValue.obj ms, rest) := by
  rw [parseValue]
  simp only [if_neg (show ¬ ('{' : Char) = '"' by decide), if_neg (show ¬ ('{' : Char) = '[' by decide),
    if_true, if_neg (Nat.not_le.2 hd)]
  rw [skipSpace_of_not_space _ _ (by decide)]
  simp only [if_neg (show ¬ ('"' : Char) = '}' by decide), hm]

theorem headNot_comma (T : Str) : HeadNot numberStop (',' :: T) := by
  intro c r h
  cases h
  decide

/-- The text `json.Marshal` writes for a record with a finite amount reads
back as the object with the three keys, in order. -/
theorem parseJSON_object (neg : Bool) (mant : Nat) (exp : Int) (c t : Str) :
    parseJSON ('{' :: (appendString Field.amount.key ++ ':' :: (formatFloat neg mant exp ++
      ',' :: (appendString Field.category.key ++ ':' :: (appendString c ++
      ',' :: (appendString Field.type_.key ++ ':' :: (appendString t ++ ['}'])))))))
    = some (JValue.obj [(Field.amount.key, JValue.num (formatFloat neg mant exp)),
        (Field.category.key, JValue.str c), (Field.type_.key, JValue.str t)]) := by
  have hnum := formatFloat_isNumber neg mant exp
  generalize hbuf : ('{' :: (appendString Field.amount.key ++ ':' :: (formatFloat neg mant exp ++
      ',' :: (appendString Field.category.key ++ ':' :: (appendString c ++
      ',' :: (appendString Field.type_.key ++ ':' :: (appendString t ++ ['}']))))))) = buf
  have hlen : 4 ≤ buf.length := by
    rw [← hbuf]
    simp only [appendString, List.length_cons, List.length_append]
    omega
  obtain ⟨n, hn⟩ : ∃ n, buf.length + 1 = (n + 4) + 1 := ⟨buf.length - 4, by omega⟩
  unfold parseJSON
  rw [hn, ← hbuf, skipSpace_of_not_space _ _ (by decide)]
  have h3 : parseMembers (n + 2) 1 (appendString Field.type_.key ++ ':' :: (appendString t ++ ['}']))
      = some ([(Field.type_.key, JValue.str t)], []) :=
    parseMembers_last (n + 1) 1 _ _ [] _ (skipSpace_of_not_space _ _ (by decide))
      (parseValue_string n 1 t ['}'])
  have h2 : parseMembers (n + 3) 1 (appendString Field.category.key ++ ':' :: (appendString c ++
      ',' :: (appendString Field.type_.key ++ ':' :: (appendString t ++ ['}']))))
      = some ([(Field.category.key, JValue.str c), (Field.type_.key, JValue.str t)], []) :=
    parseMembers_cons (n + 2) 1 _ _ _ [] _ _ (skipSpace_of_not_space _ _ (by decide))
      (parseValue_string (n + 1) 1 c _) (skipSpace_of_not_space _ _ (by decide)) h3
  have h1 : parseMembers (n + 4) 1 (appendString Field.amount.key ++ ':' :: (formatFloat neg mant exp ++
      ',' :: (appendString Field.category.key ++ ':' :: (appendString c ++
      ',' :: (appendString Field.type_.key ++ ':' :: (appendString t ++ ['}']))))))
      = some ([(Field.amount.key, JValue.num (formatFloat neg mant exp)),
        (Field.category.key, JValue.str c), (Field.type_.key, JValue.str t)], []) :=
    parseMembers_cons (n + 3) 1 _ _ _ [] _ _ (isNumber_skipSpace _ _ hnum)
      (parseValue_number (n + 2) 1 _ _ hnum (headNot_comma _))
      (skipSpace_of_not_space _ _ (by decide)) h2
  have hv : parseValue (n + 4 + 1) 0 ('{' :: (appendString Field.amount.key ++ ':' ::
      (formatFloat neg mant exp ++ ',' :: (appendString Field.category.key ++ ':' ::
      (appendString c ++ ',' :: (appendString Field.type_.key ++ ':' ::
      (appendString t ++ ['}']))))))) = some (JValue.obj
        [(Field.amount.key, JValue.num (formatFloat neg mant exp)),
          (Field.category.key, JValue.str c), (Field.type_.key, JValue.str t)], []) :=
    parseValue_object (n + 4) 0 _ [] _ (by decide) h1
  rw [hv]
  rfl

/-- The body `c.JSON` writes for a string reads back as that string. -/
theorem parseJSON_appendString (s : Str) : parseJSON (appendString s) = some (JValue.str s) := by
  unfold parseJSON
  have hs : skipSpace (appendString s) = appendString s :=
    skipSpace_of_not_space '"' (escapeTail s) (by decide)
  rw [hs]
  have := parseValue_string (appendString s).length 0 s []
  rw [List.append_nil] at this
  rw [this]
  rfl

/-- The body `c.JSON` writes for a string reads back as that string: the line
feed after the literal is white space. -/
theorem parseJSON_encodeBody (s : Str) : parseJSON (encodeBody s) = some (JValue.str s) := by
  unfold parseJSON encodeBody
  have hs : skipSpace (appendString s ++ ['\n']) = appendString s ++ ['\n'] :=
    skipSpace_of_not_space '"' (escapeTail s ++ ['\n']) (by decide)
  rw [hs, parseValue_string (appendString s ++ ['\n']).length 0 s ['\n']]
  rfl

/-! ## Lemmas: decoding into the record -/

/-- Without a range error the nearest `float64` is finite. -/
theorem nearestFloat64_finite (neg : Bool) (num den : Nat)
    (h : (nearestFloat64 neg num den).2 = false) :
    (nearestFloat64 neg num den).1.isFinite = true := by
  unfold nearestFloat64 at h ⊢
  by_cases h0 : num = 0
  · simp only [if_pos h0]; rfl
  · simp only [if_neg h0] at h ⊢
    split_ifs at h ⊢ <;> rfl

theorem ParseFloat_finite (lit : Str) (h : (ParseFloat lit).2 = false) :
    (ParseFloat lit).1.isFinite = true := by
  unfold ParseFloat at h ⊢
  simp only at h ⊢
  split_ifs at h ⊢ <;> exact nearestFloat64_finite _ _ _ h

/-- With a range error the result is the infinity of the sign. -/
theorem nearestFloat64_overflow (neg : Bool) (num den : Nat)
    (h : (nearestFloat64 neg num den).2 = true) :
    (nearestFloat64 neg num den).1 = Float64.inf neg := by
  unfold nearestFloat64 at h ⊢
  by_cases h0 : num = 0
  · simp only [if_pos h0] at h; cases h
  · simp only [if_neg h0] at h ⊢
    split_ifs at h ⊢ <;> rfl

theorem ParseFloat_overflow (lit : Str) (h : (ParseFloat lit).2 = true) :
    ∃ neg, (ParseFloat lit).1 = Float64.inf neg := by
  unfold ParseFloat at h ⊢
  simp only at h ⊢
  split_ifs at h ⊢ <;> exact ⟨_, nearestFloat64_overflow _ _ _ h⟩

/-- `ParseFloat` returns a finite value exactly when it reports no range
error. -/
theorem ParseFloat_finite_iff (lit : Str) :
    (ParseFloat lit).1.isFinite = true ↔ (ParseFloat lit).2 = false := by
  constructor
  · intro h
    cases h2 : (ParseFloat lit).2 with
    | false => rfl
    | true =>
      obtain ⟨neg, hn⟩ := ParseFloat_overflow lit h2
      rw [hn] at h
      simp [Float64.isFinite] at h
  · exact ParseFloat_finite lit

/-- `ParseFloat` never returns NaN. -/
theorem ParseFloat_ne_nan (lit : Str) : (ParseFloat lit).1 ≠ Float64.nan := by
  cases h2 : (ParseFloat lit).2 with
  | false =>
    have := ParseFloat_finite lit h2
    intro hn
    rw [hn] at this
    simp [Float64.isFinite] at this
  | true =>
    obtain ⟨neg, hn⟩ := ParseFloat_overflow lit h2
    rw [hn]
    intro h; cases h

/-- `json.Marshal` succeeds on a record whose amount is finite. -/
theorem Marshal_of_finite (t : Transaction) (h : t.Amount.isFinite = true) :
    ∃ neg mant exp, t.Amount = Float64.finite neg mant exp ∧
      Marshal t = Except.ok ('{' :: (appendString Field.amount.key ++ ':' ::
        (formatFloat neg mant exp ++ ',' :: (appendString Field.category.key ++ ':' ::
        (appendString t.Category ++ ',' :: (appendString Field.type_.key ++ ':' ::
        (appendString t.Type_ ++ ['}']))))))) := by
  unfold Marshal
  cases hA : t.Amount with
  | finite neg mant exp => exact ⟨neg, mant, exp, rfl, rfl⟩
  | inf n => rw [hA] at h; simp [Float64.isFinite] at h
  | nan => rw [hA] at h; simp [Float64.isFinite] at h

/-- `json.Marshal` fails on a record whose amount is not finite. -/
theorem Marshal_of_not_finite (t : Transaction) (h : t.Amount.isFinite = false) :
    Marshal t = Except.error JsonError.UnsupportedValueError := by
  unfold Marshal
  cases hA : t.Amount with
  | finite neg mant exp => rw [hA] at h; simp [Float64.isFinite] at h
  | inf n => rfl
  | nan => rfl

/-- What `json.Marshal` has written when it succeeds. -/
theorem Marshal_ok_inv (t : Transaction) (buf : Str) (h : Marshal t = Except.ok buf) :
    ∃ neg mant exp, t.Amount = Float64.finite neg mant exp ∧
      buf = '{' :: (appendString Field.amount.key ++ ':' ::
        (formatFloat neg mant exp ++ ',' :: (appendString Field.category.key ++ ':' ::
        (appendString t.Category ++ ',' :: (appendString Field.type_.key ++ ':' ::
        (appendString t.Type_ ++ ['}'])))))) := by
  cases hf : t.Amount.isFinite with
  | false => rw [Marshal_of_not_finite t hf] at h; cases h
  | true =>
    obtain ⟨neg, mant, exp, hA, hm⟩ := Marshal_of_finite t hf
    rw [hm] at h
    cases h
    exact ⟨neg, mant, exp, hA, rfl⟩

theorem lastWellTyped_cons (f : Field) (m : Str × JValue) (ms : List (Str × JValue)) :
    lastWellTyped f (m :: ms) =
      (lastWellTyped f ms).or
        (if (fieldOf m.1 = some f && wellTyped f m.2) = true then some m.2 else none) := by
  unfold lastWellTyped
  generalize hp : (fun m : Str × JValue => fieldOf m.1 = some f && wellTyped f m.2) = p
  have hpm : (fieldOf m.1 = some f && wellTyped f m.2) = p m := by rw [← hp]
  rw [hpm]
  by_cases hq : p m = true
  · rw [List.filter_cons_of_pos hq, List.map_cons, List.getLast?_cons, if_pos hq]
    cases (List.map Prod.snd (List.filter p ms)).getLast? <;> rfl
  · rw [List.filter_cons_of_neg hq, if_neg hq]
    cases (List.map Prod.snd (List.filter p ms)).getLast? <;> rfl

theorem lastWellTyped_wellTyped (f : Field) (ms : List (Str × JValue)) (v : JValue)
    (h : lastWellTyped f ms = some v) : wellTyped f v = true := by
  unfold lastWellTyped at h
  have hm := List.mem_of_getLast?_eq_some h
  obtain ⟨m, hm1, rfl⟩ := List.mem_map.1 hm
  have := (List.mem_filter.1 hm1).2
  simp only [Bool.and_eq_true] at this
  exact this.2

theorem amountOf_or (a b : Option JValue) (x : Float64)
    (h : ∀ v, a = some v → wellTyped Field.amount v = true) :
    amountOf (a.or b) x = amountOf a (amountOf b x) := by
  cases a with
  | none => rfl
  | some v =>
    have := h v rfl
    cases v <;> first | rfl | exact absurd this (by simp [wellTyped])

theorem textOf_or (f : Field) (hf : f ≠ Field.amount) (a b : Option JValue) (x : Str)
    (h : ∀ v, a = some v → wellTyped f v = true) :
    textOf (a.or b) x = textOf a (textOf b x) := by
  cases a with
  | none => rfl
  | some v =>
    have := h v rfl
    cases f <;> cases v <;> first | rfl | exact absurd rfl hf | exact absurd this (by simp [wellTyped])

theorem storeMember_amount (st : Transaction × Option JsonError) (m : Str × JValue) :
    (storeMember st m).1.Amount =
      amountOf (if (fieldOf m.1 = some Field.amount && wellTyped Field.amount m.2) = true
        then some m.2 else none) st.1.Amount := by
  obtain ⟨k, v⟩ := m
  unfold storeMember
  cases hk : fieldOf k with
  | none => simp [amountOf]
  | some f =>
    cases f <;> cases v <;> simp [storeField, wellTyped, amountOf]

theorem storeMember_category (st : Transaction × Option JsonError) (m : Str × JValue) :
    (storeMember st m).1.Category =
      textOf (if (fieldOf m.1 = some Field.category && wellTyped Field.category m.2) = true
        then some m.2 else none) st.1.Category := by
  obtain ⟨k, v⟩ := m
  unfold storeMember
  cases hk : fieldOf k with
  | none => simp [textOf]
  | some f =>
    cases f <;> cases v <;> simp [storeField, wellTyped, textOf]

theorem storeMember_type (st : Transaction × Option JsonError) (m : Str × JValue) :
    (storeMember st m).1.Type_ =
      textOf (if (fieldOf m.1 = some Field.type_ && wellTyped Field.type_ m.2) = true
        then some m.2 else none) st.1.Type_ := by
  obtain ⟨k, v⟩ := m
  unfold storeMember
  cases hk : fieldOf k with
  | none => simp [textOf]
  | some f =>
    cases f <;> cases v <;> simp [storeField, wellTyped, textOf]

/-- The fields after decoding the members of an object, one by one: each holds
the last well-typed value addressed to it, or what it held before. -/
theorem foldl_storeMember_fields (ms : List (Str × JValue)) (st : Transaction × Option JsonError) :
    (ms.foldl storeMember st).1 =
      { Amount := amountOf (lastWellTyped Field.amount ms) st.1.Amount,
        Category := textOf (lastWellTyped Field.category ms) st.1.Category,
        Type_ := textOf (lastWellTyped Field.type_ ms) st.1.Type_ } := by
  induction ms generalizing st with
  | nil => rfl
  | cons m ms ih =>
    rw [List.foldl_cons, ih, storeMember_amount, storeMember_category, storeMember_type,
      lastWellTyped_cons, lastWellTyped_cons, lastWellTyped_cons,
      amountOf_or _ _ _ (lastWellTyped_wellTyped _ ms),
      textOf_or Field.category (by decide) _ _ _ (lastWellTyped_wellTyped _ ms),
      textOf_or Field.type_ (by decide) _ _ _ (lastWellTyped_wellTyped _ ms)]

/-! ## Lemmas: the paths of `upload` -/

/-- The outcome of `upload` once a reply has arrived: decided by `Marshal`. -/
theorem upload_of_replied (w : World) (g : Globals) (file : FileHeader) (text reply : Str)
    (h : Replied w g file text reply) :
    (upload w g).outcome =
      match Marshal (Unmarshal reply Transaction.empty).1 with
      | Except.error err => Outcome.fatal FatalSite.marshal err.text
      | Except.ok buf => Outcome.responded StatusOK (encodeBody buf) := by
  obtain ⟨⟨⟨hf, ho, hc, hcp⟩, ht⟩, more, hcc⟩ := h
  simp only [upload, hf, ho, hc, hcp, extractText, ht, extractTransaction, hcc]
  cases Marshal (Unmarshal reply Transaction.empty).1 <;> rfl

theorem extractTransaction_of_reply (w : World) (g : Globals) (s reply : Str) (more : List Str)
    (h : w.CreateChatCompletion g.apiKey (completionRequest g s) = Except.ok (reply :: more)) :
    (extractTransaction w g s).1 = Ret.value (Unmarshal reply Transaction.empty).1 := by
  simp only [extractTransaction, h]

/-- Where `upload` can write a response, and what it writes. -/
theorem upload_responded_inv (w : World) (g : Globals) (st : Nat) (body : Str)
    (h : (upload w g).outcome = Outcome.responded st body) :
    st = StatusOK ∧ ∃ reply buf, Marshal (Unmarshal reply Transaction.empty).1 = Except.ok buf ∧
      body = encodeBody buf := by
  unfold upload at h
  split at h
  · cases h
  · split at h
    · cases h
    · simp only at h
      split at h
      · cases h
      · split at h
        · cases h
        · split at h
          · cases h
          · split at h
            · cases h
            · cases h
            · rename_i tr ev2 heq
              split at h
              · cases h
              · rename_i buf hm
                simp only [Outcome.responded.injEq] at h
                have htr : ∃ reply, tr = (Unmarshal reply Transaction.empty).1 := by
                  unfold extractTransaction at heq
                  simp only at heq
                  split at heq
                  · cases heq
                  · split at heq
                    · cases heq
                    · rename_i reply _ _
                      simp only [Prod.mk.injEq, Ret.value.injEq] at heq
                      exact ⟨reply, heq.1.symm⟩
                obtain ⟨reply, rfl⟩ := htr
                exact ⟨h.1.symm, reply, buf, hm, h.2.symm⟩

/-- Where `upload` can take the fatal exit after `json.Marshal`. -/
theorem upload_fatal_marshal_inv (w : World) (g : Globals) (msg : Str)
    (h : (upload w g).outcome = Outcome.fatal FatalSite.marshal msg) :
    ∃ reply err, Marshal (Unmarshal reply Transaction.empty).1 = Except.error err := by
  unfold upload at h
  split at h
  · cases h
  · split at h
    · cases h
    · simp only at h
      split at h
      · cases h
      · split at h
        · cases h
        · split at h
          · cases h
          · split at h
            · cases h
            · cases h
            · rename_i tr ev2 heq
              split at h
              · rename_i err hm
                have htr : ∃ reply, tr = (Unmarshal reply Transaction.empty).1 := by
                  unfold extractTransaction at heq
                  simp only at heq
                  split at heq
                  · cases heq
                  · split at heq
                    · cases heq
                    · rename_i reply _ _
                      simp only [Prod.mk.injEq, Ret.value.injEq] at heq
                      exact ⟨reply, heq.1.symm⟩
                obtain ⟨reply, rfl⟩ := htr
                exact ⟨reply, err, hm⟩
              · cases h

/-! ## Lemmas: the fuel of the scanner is enough -/

theorem skipSpace_length_le (cs : Str) : (skipSpace cs).length ≤ cs.length := by
  induction cs with
  | nil => exact le_rfl
  | cons c r ih =>
    rw [skipSpace]
    split_ifs
    · exact Nat.le_succ_of_le ih
    · exact le_rfl

theorem pushUnit_eq_some {u : Nat} {o : Option (List Nat × Str)} {us : List Nat} {r : Str}
    (h : pushUnit u o = some (us, r)) : ∃ us', o = some (us', r) := by
  cases o with
  | none => cases h
  | some p =>
    obtain ⟨a, b⟩ := p
    simp only [pushUnit, Option.some.injEq, Prod.mk.injEq] at h
    exact ⟨a, by rw [h.2]⟩

theorem scanUnits_length (n : Nat) : ∀ (cs : Str) (us : List Nat) (r : Str), cs.length ≤ n →
    scanUnits cs = some (us, r) → r.length < cs.length := by
  induction n with
  | zero =>
    intro cs us r hn h
    cases cs with
    | nil => rw [scanUnits.eq_def] at h; cases h
    | cons c t => simp at hn
  | succ n ih =>
    intro cs us r hn h
    rw [scanUnits.eq_def] at h
    cases cs with
    | nil => cases h
    | cons c t =>
      simp only [List.length_cons] at hn ⊢
      simp only at h
      split_ifs at h with h1 h2 h3
      · cases h; omega
      · cases t with
        | nil => cases h
        | cons e t1 =>
          simp only at h
          split_ifs at h with h4
          · match t1, h with
            | a :: b :: c2 :: d :: t2, h =>
              simp only at h
              cases hx : hex4 a b c2 d with
              | none => rw [hx] at h; cases h
              | some x =>
                rw [hx] at h
                simp only at h
                obtain ⟨us', h'⟩ := pushUnit_eq_some h
                have := ih t2 us' r (by simp only [List.length_cons] at hn; omega) h'
                simp only [List.length_cons]; omega
            | [], h => cases h
            | [_], h => cases h
            | [_, _], h => cases h
            | [_, _, _], h => cases h
          · cases hs : simpleEscape e with
            | none => rw [hs] at h; cases h
            | some ch =>
              rw [hs] at h
              simp only at h
              obtain ⟨us', h'⟩ := pushUnit_eq_some h
              have := ih t1 us' r (by simp only [List.length_cons] at hn; omega) h'
              simp only [List.length_cons]; omega
      · obtain ⟨us', h'⟩ := pushUnit_eq_some h
        have := ih t us' r (by omega) h'
        omega

theorem scanString_length (cs s r : Str) (h : scanString cs = some (s, r)) :
    r.length < cs.length := by
  unfold scanString at h
  cases hu : scanUnits cs with
  | none => rw [hu] at h; cases h
  | some p =>
    obtain ⟨us, r'⟩ := p
    rw [hu] at h
    simp only [Option.some.injEq, Prod.mk.injEq] at h
    rw [← h.2]
    exact scanUnits_length cs.length cs us r' le_rfl hu

theorem expectText_length (p cs r : Str) (h : expectText p cs = some r) :
    r.length ≤ cs.length := by
  induction p generalizing cs with
  | nil => simp only [expectText, Option.some.injEq] at h; rw [h]
  | cons a p ih =>
    cases cs with
    | nil => simp [expectText] at h
    | cons c t =>
      simp only [expectText] at h
      split_ifs at h
      have := ih t h
      simp only [List.length_cons]; omega

theorem dropWhile_length_le (p : Char → Bool) (cs : Str) :
    (cs.dropWhile p).length ≤ cs.length :=
  (List.dropWhile_sublist p).length_le

theorem scanInt_length (cs ip r : Str) (h : scanInt cs = some (ip, r)) :
    r.length < cs.length := by
  cases cs with
  | nil => simp [scanInt] at h
  | cons c t =>
    simp only [scanInt] at h
    split_ifs at h
    · simp only [Option.some.injEq, Prod.mk.injEq] at h
      rw [← h.2]; simp
    · simp only [Option.some.injEq, Prod.mk.injEq] at h
      rw [← h.2]
      have := dropWhile_length_le Char.isDigit t
      simp only [List.length_cons]; omega

theorem scanFrac_length (cs fp r : Str) (h : scanFrac cs = some (fp, r)) :
    r.length ≤ cs.length := by
  cases cs with
  | nil => simp only [scanFrac, Option.some.injEq, Prod.mk.injEq] at h; rw [← h.2]
  | cons c t =>
    simp only [scanFrac] at h
    split_ifs at h
    · simp only [Option.some.injEq, Prod.mk.injEq] at h
      rw [← h.2]
      have := dropWhile_length_le Char.isDigit t
      simp only [List.length_cons]; omega
    · simp only [Option.some.injEq, Prod.mk.injEq] at h
      rw [← h.2]

theorem scanSign_length (cs : Str) : (scanSign cs).2.length ≤ cs.length := by
  cases cs with
  | nil => simp [scanSign]
  | cons c t =>
    simp only [scanSign]
    split_ifs <;> simp

theorem scanExp_length (cs ep r : Str) (h : scanExp cs = some (ep, r)) :
    r.length ≤ cs.length := by
  cases cs with
  | nil => simp only [scanExp, Option.some.injEq, Prod.mk.injEq] at h; rw [← h.2]
  | cons c t =>
    simp only [scanExp] at h
    split_ifs at h
    · simp only [Option.some.injEq, Prod.mk.injEq] at h
      rw [← h.2]
      have h1 := dropWhile_length_le Char.isDigit (scanSign t).2
      have h2 := scanSign_length t
      simp only [List.length_cons]; omega
    · simp only [Option.some.injEq, Prod.mk.injEq] at h
      rw [← h.2]

theorem scanNumber_length (cs lit r : Str) (h : scanNumber cs = some (lit, r)) :
    r.length < cs.length := by
  cases cs with
  | nil => simp [scanNumber] at h
  | cons c t =>
    simp only [scanNumber] at h
    cases hi : scanInt (if c = '-' then t else c :: t) with
    | none => rw [hi] at h; cases h
    | some p1 =>
      obtain ⟨ip, r1⟩ := p1
      rw [hi] at h
      simp only at h
      cases hf : scanFrac r1 with
      | none => rw [hf] at h; cases h
      | some p2 =>
        obtain ⟨fp, r2⟩ := p2
        rw [hf] at h
        simp only at h
        cases he : scanExp r2 with
        | none => rw [he] at h; cases h
        | some p3 =>
          obtain ⟨ep, r3⟩ := p3
          rw [he] at h
          simp only [Option.some.injEq, Prod.mk.injEq] at h
          rw [← h.2]
          have l1 := scanInt_length _ _ _ hi
          have l2 := scanFrac_length _ _ _ hf
          have l3 := scanExp_length _ _ _ he
          have l0 : (if c = '-' then t else c :: t).length ≤ (c :: t).length := by
            split_ifs <;> simp
          omega

theorem parseValue_fuelFree_step (n : Nat) (hE : FuelFree parseElems n)
    (hM : FuelFree parseMembers n) : FuelFree parseValue (n + 1) := by
  intro d cs v r h
  cases cs with
  | nil => rw [parseValue] at h; cases h
  | cons c t =>
    rw [parseValue] at h
    have hlen : (c :: t).length = t.length + 1 := rfl
    by_cases h1 : c = '"'
    · rw [if_pos h1] at h
      cases hs : scanString t with
      | none => rw [hs] at h; cases h
      | some p =>
        obtain ⟨s, r1⟩ := p
        rw [hs] at h
        simp only [Option.some.injEq, Prod.mk.injEq] at h
        obtain ⟨rfl, rfl⟩ := h
        have hl := scanString_length t s r1 hs
        refine ⟨by omega, ?_⟩
        intro m hm
        obtain ⟨m', rfl⟩ : ∃ m', m = m' + 1 := ⟨m - 1, by omega⟩
        rw [parseValue]
        simp only [if_pos h1, hs]
    rw [if_neg h1] at h
    by_cases h2 : c = '['
    · rw [if_pos h2] at h
      by_cases hd : maxNestingDepth ≤ d
      · rw [if_pos hd] at h; cases h
      rw [if_neg hd] at h
      have hsk := skipSpace_length_le t
      cases hk : skipSpace t with
      | nil => rw [hk] at h; cases h
      | cons c1 r1 =>
        rw [hk] at h hsk
        simp only at h
        by_cases h3 : c1 = ']'
        · rw [if_pos h3] at h
          simp only [Option.some.injEq, Prod.mk.injEq] at h
          obtain ⟨rfl, rfl⟩ := h
          simp only [List.length_cons] at hsk
          refine ⟨by omega, ?_⟩
          intro m hm
          obtain ⟨m', rfl⟩ : ∃ m', m = m' + 1 := ⟨m - 1, by omega⟩
          rw [parseValue]
          simp only [if_neg h1, if_pos h2, if_neg hd, hk, if_pos h3]
        · rw [if_neg h3] at h
          cases he : parseElems n (d + 1) (c1 :: r1) with
          | none => rw [he] at h; cases h
          | some p =>
            obtain ⟨xs, r2⟩ := p
            rw [he] at h
            simp only [Option.some.injEq, Prod.mk.injEq] at h
            obtain ⟨rfl, rfl⟩ := h
            obtain ⟨hl, hfu⟩ := hE _ _ _ _ he
            refine ⟨by omega, ?_⟩
            intro m hm
            obtain ⟨m', rfl⟩ : ∃ m', m = m' + 1 := ⟨m - 1, by omega⟩
            rw [parseValue]
            simp only [if_neg h1, if_pos h2, if_neg hd, hk, if_neg h3, hfu m' (by omega)]
    rw [if_neg h2] at h
    by_cases h4 : c = '{'
    · rw [if_pos h4] at h
      by_cases hd : maxNestingDepth ≤ d
      · rw [if_pos hd] at h; cases h
      rw [if_neg hd] at h
      have hsk := skipSpace_length_le t
      cases hk : skipSpace t with
      | nil => rw [hk] at h; cases h
      | cons c1 r1 =>
        rw [hk] at h hsk
        simp only at h
        by_cases h3 : c1 = '}'
        · rw [if_pos h3] at h
          simp only [Option.some.injEq, Prod.mk.injEq] at h
          obtain ⟨rfl, rfl⟩ := h
          simp only [List.length_cons] at hsk
          refine ⟨by omega, ?_⟩
          intro m hm
          obtain ⟨m', rfl⟩ : ∃ m', m = m' + 1 := ⟨m - 1, by omega⟩
          rw [parseValue]
          simp only [if_neg h1, if_neg h2, if_pos h4, if_neg hd, hk, if_pos h3]
        · rw [if_neg h3] at h
          cases he : parseMembers n (d + 1) (c1 :: r1) with
          | none => rw [he] at h; cases h
          | some p =>
            obtain ⟨xs, r2⟩ := p
            rw [he] at h
            simp only [Option.some.injEq, Prod.mk.injEq] at h
            obtain ⟨rfl, rfl⟩ := h
            obtain ⟨hl, hfu⟩ := hM _ _ _ _ he
            refine ⟨by omega, ?_⟩
            intro m hm
            obtain ⟨m', rfl⟩ : ∃ m', m = m' + 1 := ⟨m - 1, by omega⟩
            rw [parseValue]
            simp only [if_neg h1, if_neg h2, if_pos h4, if_neg hd, hk, if_neg h3, hfu m' (by omega)]
    rw [if_neg h4] at h
    by_cases h5 : c = 't'
    · rw [if_pos h5] at h
      cases hx : expectText "rue".toList t with
      | none => rw [hx] at h; cases h
      | some r1 =>
        rw [hx] at h
        simp only [Option.some.injEq, Prod.mk.injEq] at h
        obtain ⟨rfl, rfl⟩ := h
        have hl := expectText_length _ _ _ hx
        refine ⟨by omega, ?_⟩
        intro m hm
        obtain ⟨m', rfl⟩ : ∃ m', m = m' + 1 := ⟨m - 1, by omega⟩
        rw [parseValue]
        simp only [if_neg h1, if_neg h2, if_neg h4, if_pos h5, hx]
    rw [if_neg h5] at h
    by_cases h6 : c = 'f'
    · rw [if_pos h6] at h
      cases hx : expectText "alse".toList t with
      | none => rw [hx] at h; cases h
      | some r1 =>
        rw [hx] at h
        simp only [Option.some.injEq, Prod.mk.injEq] at h
        obtain ⟨rfl, rfl⟩ := h
        have hl := expectText_length _ _ _ hx
        refine ⟨by omega, ?_⟩
        intro m hm
        obtain ⟨m', rfl⟩ : ∃ m', m = m' + 1 := ⟨m - 1, by omega⟩
        rw [parseValue]
        simp only [if_neg h1, if_neg h2, if_neg h4, if_neg h5, if_pos h6, hx]
    rw [if_neg h6] at h
    by_cases h7 : c = 'n'
    · rw [if_pos h7] at h
      cases hx : expectText "ull".toList t with
      | none => rw [hx] at h; cases h
      | some r1 =>
        rw [hx] at h
        simp only [Option.some.injEq, Prod.mk.injEq] at h
        obtain ⟨rfl, rfl⟩ := h
        have hl := expectText_length _ _ _ hx
        refine ⟨by omega, ?_⟩
        intro m hm
        obtain ⟨m', rfl⟩ : ∃ m', m = m' + 1 := ⟨m - 1, by omega⟩
        rw [parseValue]
        simp only [if_neg h1, if_neg h2, if_neg h4, if_neg h5, if_neg h6, if_pos h7, hx]
    rw [if_neg h7] at h
    cases hx : scanNumber (c :: t) with
    | none => rw [hx] at h; cases h
    | some p =>
      obtain ⟨lit, r1⟩ := p
      rw [hx] at h
      simp only [Option.some.injEq, Prod.mk.injEq] at h
      obtain ⟨rfl, rfl⟩ := h
      have hl := scanNumber_length _ _ _ hx
      refine ⟨hl, ?_⟩
      intro m hm
      obtain ⟨m', rfl⟩ : ∃ m', m = m' + 1 := ⟨m - 1, by omega⟩
      rw [parseValue]
      simp only [if_neg h1, if_neg h2, if_neg h4, if_neg h5, if_neg h6, if_neg h7, hx]

theorem parseElems_fuelFree_step (n : Nat) (hV : FuelFree parseValue n)
    (hE : FuelFree parseElems n) : FuelFree parseElems (n + 1) := by
  intro d cs xs r h
  rw [parseElems] at h
  cases hv : parseValue n d cs with
  | none => rw [hv] at h; cases h
  | some p =>
    obtain ⟨v, r1⟩ := p
    rw [hv] at h
    simp only at h
    obtain ⟨hl1, hfu1⟩ := hV _ _ _ _ hv
    have hsk := skipSpace_length_le r1
    cases hk : skipSpace r1 with
    | nil => rw [hk] at h; cases h
    | cons c r2 =>
      rw [hk] at h hsk
      simp only [List.length_cons] at hsk
      simp only at h
      by_cases h1 : c = ','
      · rw [if_pos h1] at h
        have hsk2 := skipSpace_length_le r2
        cases he : parseElems n d (skipSpace r2) with
        | none => rw [he] at h; cases h
        | some q =>
          obtain ⟨ys, r3⟩ := q
          rw [he] at h
          simp only [Option.some.injEq, Prod.mk.injEq] at h
          obtain ⟨rfl, rfl⟩ := h
          obtain ⟨hl2, hfu2⟩ := hE _ _ _ _ he
          refine ⟨by omega, ?_⟩
          intro m hm
          obtain ⟨m', rfl⟩ : ∃ m', m = m' + 1 := ⟨m - 1, by omega⟩
          rw [parseElems]
          simp only [hfu1 m' (by omega), hk, if_pos h1, hfu2 m' (by omega)]
      · rw [if_neg h1] at h
        by_cases h2 : c = ']'
        · rw [if_pos h2] at h
          simp only [Option.some.injEq, Prod.mk.injEq] at h
          obtain ⟨rfl, rfl⟩ := h
          refine ⟨by omega, ?_⟩
          intro m hm
          obtain ⟨m', rfl⟩ : ∃ m', m = m' + 1 := ⟨m - 1, by omega⟩
          rw [parseElems]
          simp only [hfu1 m' (by omega), hk, if_neg h1, if_pos h2]
        · rw [if_neg h2] at h; cases h

theorem parseMembers_fuelFree_step (n : Nat) (hV : FuelFree parseValue n)
    (hM : FuelFree parseMembers n) : FuelFree parseMembers (n + 1) := by
  intro d cs ms r h
  cases cs with
  | nil => rw [parseMembers] at h; cases h
  | cons q t =>
    rw [parseMembers] at h
    by_cases hq : q ≠ '"'
    · rw [if_pos hq] at h; cases h
    rw [if_neg hq] at h
    cases hs : scanString t with
    | none => rw [hs] at h; cases h
    | some p =>
      obtain ⟨k, r1⟩ := p
      rw [hs] at h
      simp only at h
      have hl0 := scanString_length t k r1 hs
      have hsk1 := skipSpace_length_le r1
      cases hk1 : skipSpace r1 with
      | nil => rw [hk1] at h; cases h
      | cons c r2 =>
        rw [hk1] at h hsk1
        simp only [List.length_cons] at hsk1
        simp only at h
        by_cases hc : c ≠ ':'
        · rw [if_pos hc] at h; cases h
        rw [if_neg hc] at h
        have hsk2 := skipSpace_length_le r2
        cases hv : parseValue n d (skipSpace r2) with
        | none => rw [hv] at h; cases h
        | some p2 =>
          obtain ⟨v, r3⟩ := p2
          rw [hv] at h
          simp only at h
          obtain ⟨hl1, hfu1⟩ := hV _ _ _ _ hv
          have hsk3 := skipSpace_length_le r3
          cases hk3 : skipSpace r3 with
          | nil => rw [hk3] at h; cases h
          | cons c1 r4 =>
            rw [hk3] at h hsk3
            simp only [List.length_cons] at hsk3
            simp only at h
            by_cases h1 : c1 = ','
            · rw [if_pos h1] at h
              have hsk4 := skipSpace_length_le r4
              cases he : parseMembers n d (skipSpace r4) with
              | none => rw [he] at h; cases h
              | some q2 =>
                obtain ⟨ys, r5⟩ := q2
                rw [he] at h
                simp only [Option.some.injEq, Prod.mk.injEq] at h
                obtain ⟨rfl, rfl⟩ := h
                obtain ⟨hl2, hfu2⟩ := hM _ _ _ _ he
                simp only [List.length_cons]
                refine ⟨by omega, ?_⟩
                intro m hm
                obtain ⟨m', rfl⟩ : ∃ m', m = m' + 1 := ⟨m - 1, by omega⟩
                rw [parseMembers]
                simp only [if_neg hq, hs, hk1, if_neg hc, hfu1 m' (by omega), hk3, if_pos h1,
                  hfu2 m' (by omega)]
            · rw [if_neg h1] at h
              by_cases h2 : c1 = '}'
              · rw [if_pos h2] at h
                simp only [Option.some.injEq, Prod.mk.injEq] at h
                obtain ⟨rfl, rfl⟩ := h
                simp only [List.length_cons]
                refine ⟨by omega, ?_⟩
                intro m hm
                obtain ⟨m', rfl⟩ : ∃ m', m = m' + 1 := ⟨m - 1, by omega⟩
                rw [parseMembers]
                simp only [if_neg hq, hs, hk1, if_neg hc, hfu1 m' (by omega), hk3, if_neg h1,
                  if_pos h2]
              · rw [if_neg h2] at h; cases h

/-- Fuel does not matter: a scan that succeeds with some fuel succeeds, with
the same result, with any fuel of at least the number of characters it reads. -/
theorem parse_fuelFree (n : Nat) :
    FuelFree parseValue n ∧ FuelFree parseElems n ∧ FuelFree parseMembers n := by
  induction n with
  | zero =>
    refine ⟨?_, ?_, ?_⟩ <;> intro d cs a r h
    · rw [parseValue] at h; cases h
    · rw [parseElems] at h; cases h
    · rw [parseMembers] at h; cases h
  | succ n ih =>
    obtain ⟨hV, hE, hM⟩ := ih
    exact ⟨parseValue_fuelFree_step n hE hM, parseElems_fuelFree_step n hV hE,
      parseMembers_fuelFree_step n hV hM⟩

/-- The fuel `parseJSON` gives the scanner is enough: a text that scans as one
value with any amount of fuel is read by `parseJSON` as that value. -/
theorem parseJSON_of_parseValue (cs : Str) (n : Nat) (v : JValue) (r : Str)
    (h : parseValue n 0 (skipSpace cs) = some (v, r)) (hr : skipSpace r = []) :
    parseJSON cs = some v := by
  obtain ⟨_, hfu⟩ := (parse_fuelFree n).1 _ _ _ _ h
  have hsk := skipSpace_length_le cs
  unfold parseJSON
  rw [hfu (cs.length + 1) (by omega)]
  simp only [hr, if_true]

/-! ## Theorems: control flow of `upload` and `main` -/

/-- C5: when a step before transcription fails (form extraction, opening the
upload, creating the destination file, or the copy), `upload` returns that
same error to the HTTP layer; it calls neither service, sends no response, and
when form extraction fails it does not create the destination file. -/
theorem upload_early_failure_returns_error (w : World) (g : Globals) (err : GoError)
    (h : w.FormFile "file".toList = Except.error err ∨
      ∃ file, w.FormFile "file".toList = Except.ok file ∧
        (w.Open file = some err ∨
          (w.Open file = none ∧
            (w.Create file.Filename = some err ∨
              (w.Create file.Filename = none ∧ w.Copy file.Filename = some err))))) :
    (upload w g).outcome = Outcome.returned err ∧
    (∀ ev ∈ (upload w g).events, ev.isServiceCall = false ∧ ev.isRespond = false) ∧
    (w.FormFile "file".toList = Except.error err →
      ∀ ev ∈ (upload w g).events, ev.isCreate = false) := by
  rcases h with h | ⟨file, hf, h⟩
  · simp only [upload, h]
    simp
  · rcases h with h | ⟨ho, h⟩
    · simp only [upload, hf, h]
      simp
    · rcases h with h | ⟨hc, h⟩
      · simp only [upload, hf, ho, h]
        simp [Event.isServiceCall, Event.isRespond]
      · simp only [upload, hf, ho, hc, h]
        simp [Event.isServiceCall, Event.isRespond]

/-- Witness of C5: the copy fails in a world where the earlier steps succeed. -/
theorem upload_early_failure_returns_error_witness :
    (upload { stubWorld (Except.ok []) (Except.ok []) with Copy := fun _ => some stubError }
      stubGlobals).outcome = Outcome.returned stubError :=
  (upload_early_failure_returns_error
    { stubWorld (Except.ok []) (Except.ok []) with Copy := fun _ => some stubError }
    stubGlobals stubError
    (Or.inr ⟨{ Filename := "voice.mp3".toList }, rfl, Or.inr ⟨rfl, Or.inr ⟨rfl, rfl⟩⟩⟩)).1

/-- C6: once the upload is stored, an error of the transcription call ends the
process (`log.Fatal`) before any completion call and without a response; and
an error of the completion call, after a successful transcription, ends the
process without a response.  In neither case does `upload` return the error
to the HTTP layer. -/
theorem upload_service_failure_is_fatal (w : World) (g : Globals) (file : FileHeader)
    (err : GoError)
    (hf : w.FormFile "file".toList = Except.ok file) (ho : w.Open file = none)
    (hc : w.Create file.Filename = none) (hcp : w.Copy file.Filename = none) :
    (w.CreateTranscription g.apiKey { Model := Whisper1, FilePath := file.Filename }
        = Except.error err →
      (upload w g).outcome = Outcome.fatal FatalSite.extractText err.msg ∧
      (∀ ev ∈ (upload w g).events, ev.isCompletion = false ∧ ev.isRespond = false) ∧
      ∀ e, (upload w g).outcome ≠ Outcome.returned e) ∧
    (∀ text,
      w.CreateTranscription g.apiKey { Model := Whisper1, FilePath := file.Filename }
        = Except.ok text →
      w.CreateChatCompletion g.apiKey
        (completionRequest { g with prompt := buildPrompt w.schema } text) = Except.error err →
      (upload w g).outcome = Outcome.fatal FatalSite.extractTransaction err.msg ∧
      (∀ ev ∈ (upload w g).events, ev.isRespond = false) ∧
      ∀ e, (upload w g).outcome ≠ Outcome.returned e) := by
  constructor
  · intro ht
    simp only [upload, hf, ho, hc, hcp, extractText, ht]
    simp [Event.isCompletion, Event.isRespond]
  · intro text ht hcc
    simp only [upload, hf, ho, hc, hcp, extractText, ht, extractTransaction, hcc]
    simp [Event.isRespond]

/-- Witness of C6: the transcription call fails. -/
theorem upload_service_failure_is_fatal_witness :
    (upload (stubWorld (Except.error stubError) (Except.ok [])) stubGlobals).outcome
      = Outcome.fatal FatalSite.extractText stubError.msg :=
  ((upload_service_failure_is_fatal (stubWorld (Except.error stubError) (Except.ok []))
    stubGlobals { Filename := "voice.mp3".toList } stubError rfl rfl rfl rfl).1 rfl).1

/-- C7 (failing input): a completion result without error and without
candidates makes `extractTransaction` panic at `resp.Choices[0]`, and `upload`
with it; no record is returned and nothing is parsed. -/
theorem extractTransaction_empty_choices_panics :
    (extractTransaction (stubWorld (Except.ok "coffee".toList) (Except.ok [])) stubGlobals
      "coffee".toList).1 = Ret.panic indexOutOfRange ∧
    (upload (stubWorld (Except.ok "coffee".toList) (Except.ok [])) stubGlobals).outcome
      = Outcome.panicked indexOutOfRange := by
  constructor <;> rfl

/-- C8: the request sent to the completion service has exactly two messages,
the system message with the fixed preamble, the schema text and the fixed
trailing instruction, then the user message with the transcribed text
unchanged; 2000 tokens, temperature 1, one candidate, no stop sequences.  It
is the only completion call of the request, whatever `prompt` held before. -/
theorem upload_completion_request (w : World) (g : Globals) (file : FileHeader) (text : Str)
    (hf : w.FormFile "file".toList = Except.ok file) (ho : w.Open file = none)
    (hc : w.Create file.Filename = none) (hcp : w.Copy file.Filename = none)
    (ht : w.CreateTranscription g.apiKey { Model := Whisper1, FilePath := file.Filename }
      = Except.ok text) :
    (upload w g).events.filter Event.isCompletion =
      [Event.completion
        { Model := "gpt-3.5-turbo".toList,
          Messages :=
            [{ Role := "system".toList,
               Content :=
                 "You are a helpful assistant extracting a personal transaction from text. From the given text, create a valid JSON representation that strictly follows this schema:\n\n".toList
                 ++ w.schema ++
                 "\n\nIf no transaction can be found return an empty string. Omit null fields. Return JSON only. The JSON object:\n\n".toList },
             { Role := "user".toList, Content := text }],
          MaxTokens := 2000,
          Temperature := 1,
          Stop := [],
          N := 1 }] := by
  have hp : buildPrompt w.schema =
      "You are a helpful assistant extracting a personal transaction from text. From the given text, create a valid JSON representation that strictly follows this schema:\n\n".toList
        ++ w.schema ++
        "\n\nIf no transaction can be found return an empty string. Omit null fields. Return JSON only. The JSON object:\n\n".toList := by
    unfold buildPrompt
    rw [show "You are a helpful assistant extracting a personal transaction from text. From the given text, create a valid JSON representation that strictly follows this schema:\n\n".toList
        = "You are a helpful assistant extracting a personal transaction from text. ".toList ++
          "From the given text, create a valid JSON representation that strictly follows this schema:\n\n".toList
        from rfl,
      show "\n\nIf no transaction can be found return an empty string. Omit null fields. Return JSON only. The JSON object:\n\n".toList
        = "\n\n".toList ++
          "If no transaction can be found return an empty string. Omit null fields. Return JSON only. The JSON object:\n\n".toList
        from rfl]
    simp only [List.append_assoc]
  rw [← hp]
  simp only [upload, hf, ho, hc, hcp, extractText, ht, extractTransaction]
  cases hcc : w.CreateChatCompletion g.apiKey
      (completionRequest { g with prompt := buildPrompt w.schema } text) with
  | error e => simp [completionRequest, Event.isCompletion, GPT3Dot5Turbo, ChatMessageRoleSystem, ChatMessageRoleUser]
  | ok choices =>
    cases choices with
    | nil => simp [completionRequest, Event.isCompletion, GPT3Dot5Turbo, ChatMessageRoleSystem, ChatMessageRoleUser]
    | cons reply rest =>
      simp only []
      cases Marshal (Unmarshal reply Transaction.empty).1 <;>
        simp [completionRequest, Event.isCompletion, GPT3Dot5Turbo, ChatMessageRoleSystem, ChatMessageRoleUser]

/-- C9: without the variable `OPENAI_API_KEY`, `main` exits fatally and neither
registers the route nor starts the listener; with a non-empty value it takes
no fatal exit, registers `/upload` and starts the listener. -/
theorem main_requires_api_key (env : Str → Option Str) :
    (env "OPENAI_API_KEY".toList = none →
      (main env).2 = [Startup.fatal "api key not found".toList] ∧
      ∀ st ∈ (main env).2, st.serves = false) ∧
    (∀ v, env "OPENAI_API_KEY".toList = some v → v ≠ [] →
      (main env).1 = v ∧
      (∀ st ∈ (main env).2, st.isFatal = false) ∧
      Startup.post "/upload".toList ∈ (main env).2 ∧
      Startup.start ":1323".toList ∈ (main env).2) := by
  constructor
  · intro h
    simp only [main, Getenv, h]
    simp [Startup.serves]
  · intro v h hv
    simp only [main, Getenv, h]
    simp [hv, Startup.isFatal]

/-- Witness of C9: an empty environment, where `main` exits at once. -/
theorem main_requires_api_key_witness :
    (main (fun _ => none)).2 = [Startup.fatal "api key not found".toList] :=
  ((main_requires_api_key (fun _ => none)).1 rfl).1

/-! ## Theorems: the reply of the completion service -/

/-- C1: when the request reaches the extraction step and the completion reply
is the empty string or is not valid JSON, `extractTransaction` returns a record
with `Amount = 0`, `Category = ""`, `Type = ""` and no error, and `upload`
answers with status 200 (the body is the double-encoded zero record). -/
theorem invalid_reply_gives_zero_record (w : World) (g : Globals) (file : FileHeader)
    (text reply : Str) (h : Replied w g file text reply)
    (hbad : reply = [] ∨ parseJSON reply = none) :
    (extractTransaction w { g with prompt := buildPrompt w.schema } text).1
      = Ret.value { Amount := Float64.finite false 0 0, Category := [], Type_ := [] } ∧
    (upload w g).outcome = Outcome.responded 200
      "\"\x7b\\\"amount\\\":0,\\\"category\\\":\\\"\\\",\\\"type\\\":\\\"\\\"\x7d\"\n".toList := by
  have hnone : parseJSON reply = none := by
    rcases hbad with rfl | h0
    · rfl
    · exact h0
  have hu : (Unmarshal reply Transaction.empty).1 = Transaction.empty := by
    simp only [Unmarshal, hnone]
  obtain ⟨_, more, hcc⟩ := id h
  constructor
  · rw [extractTransaction_of_reply _ _ _ _ _ hcc, hu]; rfl
  · rw [upload_of_replied w g file text reply h, hu]; rfl

/-- Witness of C1: the reply `not json`. -/
theorem invalid_reply_gives_zero_record_witness :
    parseJSON "not json".toList = none ∧
    (upload (stubWorld (Except.ok "hello".toList) (Except.ok ["not json".toList]))
      stubGlobals).outcome = Outcome.responded 200
      "\"\x7b\\\"amount\\\":0,\\\"category\\\":\\\"\\\",\\\"type\\\":\\\"\\\"\x7d\"\n".toList :=
  ⟨rfl, (invalid_reply_gives_zero_record
    (stubWorld (Except.ok "hello".toList) (Except.ok ["not json".toList])) stubGlobals
    { Filename := "voice.mp3".toList } "hello".toList "not json".toList
    ⟨⟨⟨rfl, rfl, rfl, rfl⟩, rfl⟩, [], rfl⟩ (Or.inr rfl)).2⟩

/-- C3 (counterexample): the reply `{"amount":"x","category":"coffee","type":"expense"}`
is valid JSON whose `amount` has the wrong type, yet the record returned has
`Category = "coffee"` and `Type = "expense"`: only `Amount` is left at zero. -/
theorem wrong_shape_reply_not_all_zero :
    parseJSON "\x7b\"amount\":\"x\",\"category\":\"coffee\",\"type\":\"expense\"\x7d".toList
      = some (JValue.obj [("amount".toList, JValue.str "x".toList),
          ("category".toList, JValue.str "coffee".toList),
          ("type".toList, JValue.str "expense".toList)]) ∧
    (extractTransaction
      (stubWorld (Except.ok "coffee".toList)
        (Except.ok ["\x7b\"amount\":\"x\",\"category\":\"coffee\",\"type\":\"expense\"\x7d".toList]))
      stubGlobals "coffee".toList).1
      = Ret.value { Amount := Float64.finite false 0 0, Category := "coffee".toList,
                    Type_ := "expense".toList } ∧
    ({ Amount := Float64.finite false 0 0, Category := "coffee".toList,
       Type_ := "expense".toList } : Transaction) ≠ Transaction.empty := by
  refine ⟨rfl, rfl, by decide⟩

/-- C3 (amended): for a reply that is valid JSON, `extractTransaction` returns
a record and no error.  If the value is not an object, the record is the zero
record.  If it is an object, each field holds the last value addressed to it
that has the right JSON type (a number for `amount`, a string for `category`
and `type`), and its zero value when there is none: a member of the wrong JSON
type leaves its own field alone and the other members are still stored.  A
number is stored as `ParseFloat` returns it (`amountOf`). -/
theorem wrong_shape_reply_fields (w : World) (g : Globals) (s reply : Str) (more : List Str)
    (v : JValue)
    (hcc : w.CreateChatCompletion g.apiKey (completionRequest g s) = Except.ok (reply :: more))
    (hv : parseJSON reply = some v) :
    (v.isObject = false → (extractTransaction w g s).1 = Ret.value Transaction.empty) ∧
    (∀ ms, v = JValue.obj ms →
      (extractTransaction w g s).1 = Ret.value
        { Amount := amountOf (lastWellTyped Field.amount ms) Float64.zero,
          Category := textOf (lastWellTyped Field.category ms) [],
          Type_ := textOf (lastWellTyped Field.type_ ms) [] }) := by
  rw [extractTransaction_of_reply _ _ _ _ _ hcc]
  constructor
  · intro hno
    cases v with
    | obj ms => simp [JValue.isObject] at hno
    | _ => simp only [Unmarshal, hv]
  · rintro ms rfl
    simp only [Unmarshal, hv]
    rw [foldl_storeMember_fields]
    rfl

/-- Witness of C3: an object whose `category` is a number and whose `amount`
and `type` are well-typed gives the record `(3, "", "expense")`. -/
theorem wrong_shape_reply_fields_witness :
    (extractTransaction
      (stubWorld (Except.ok "tea".toList)
        (Except.ok ["\x7b\"amount\":3,\"category\":7,\"type\":\"expense\"\x7d".toList]))
      stubGlobals "tea".toList).1 = Ret.value
        { Amount := Float64.finite false 6755399441055744 (-51), Category := [],
          Type_ := "expense".toList } :=
  ((wrong_shape_reply_fields
    (stubWorld (Except.ok "tea".toList)
      (Except.ok ["\x7b\"amount\":3,\"category\":7,\"type\":\"expense\"\x7d".toList]))
    stubGlobals "tea".toList
    "\x7b\"amount\":3,\"category\":7,\"type\":\"expense\"\x7d".toList [] _ rfl rfl).2 _ rfl).trans
    rfl

/-- C4: whenever `upload` writes a response, its status is 200 and its body is
a JSON string literal whose value is the JSON text of an object with exactly
the keys `amount`, `category` and `type`, in this order, where `amount` is a
number and the other two are strings. -/
theorem response_is_double_encoded_transaction (w : World) (g : Globals) (st : Nat) (body : Str)
    (h : (upload w g).outcome = Outcome.responded st body) :
    st = 200 ∧
    ∃ s n c t, parseJSON body = some (JValue.str s) ∧ IsNumber n ∧
      parseJSON s = some (JValue.obj [("amount".toList, JValue.num n),
        ("category".toList, JValue.str c), ("type".toList, JValue.str t)]) := by
  obtain ⟨hst, reply, buf, hm, rfl⟩ := upload_responded_inv w g st body h
  refine ⟨hst, buf, ?_⟩
  obtain ⟨neg, mant, exp, _, rfl⟩ := Marshal_ok_inv _ buf hm
  exact ⟨formatFloat neg mant exp, _, _, parseJSON_encodeBody _,
    formatFloat_isNumber neg mant exp, parseJSON_object neg mant exp _ _⟩

/-- Witness of C4: the response to the reply `[1, 2]`. -/
theorem response_is_double_encoded_transaction_witness :
    (upload (stubWorld (Except.ok "hello".toList) (Except.ok ["[1, 2]".toList]))
      stubGlobals).outcome = Outcome.responded 200
        "\"\x7b\\\"amount\\\":0,\\\"category\\\":\\\"\\\",\\\"type\\\":\\\"\\\"\x7d\"\n".toList ∧
    ∃ s n c t,
      parseJSON "\"\x7b\\\"amount\\\":0,\\\"category\\\":\\\"\\\",\\\"type\\\":\\\"\\\"\x7d\"\n".toList
        = some (JValue.str s) ∧ IsNumber n ∧
      parseJSON s = some (JValue.obj [("amount".toList, JValue.num n),
        ("category".toList, JValue.str c), ("type".toList, JValue.str t)]) :=
  ⟨rfl, (response_is_double_encoded_transaction
    (stubWorld (Except.ok "hello".toList) (Except.ok ["[1, 2]".toList])) stubGlobals 200
    "\"\x7b\\\"amount\\\":0,\\\"category\\\":\\\"\\\",\\\"type\\\":\\\"\\\"\x7d\"\n".toList rfl).2⟩

/-- The amount of the record `json.Unmarshal` fills from a reply is the zero
value, or what `ParseFloat` returns for the last number addressed to `amount`
in the object of the reply. -/
theorem Unmarshal_amount (reply : Str) :
    (Unmarshal reply Transaction.empty).1.Amount = Float64.zero ∨
    ∃ ms lit, parseJSON reply = some (JValue.obj ms) ∧
      lastWellTyped Field.amount ms = some (JValue.num lit) ∧
      (Unmarshal reply Transaction.empty).1.Amount = (ParseFloat lit).1 := by
  unfold Unmarshal
  cases hp : parseJSON reply with
  | none => exact Or.inl rfl
  | some v =>
    cases v with
    | obj ms =>
      simp only
      rw [foldl_storeMember_fields]
      cases hl : lastWellTyped Field.amount ms with
      | none => exact Or.inl rfl
      | some x =>
        have hw := lastWellTyped_wellTyped _ ms x hl
        cases x with
        | num lit => exact Or.inr ⟨ms, lit, rfl, hl, rfl⟩
        | _ => simp [wellTyped] at hw
    | _ => exact Or.inl rfl

set_option exponentiation.threshold 2000 in
set_option maxRecDepth 100000 in
/-- C10 (counterexample): the reply `{"amount":-1e400}` leaves the infinity
`-Inf` in `Amount`; `json.Marshal` fails on it and `upload` takes the fatal
exit that guards serialisation. -/
theorem infinite_amount_reaches_marshal_fatal :
    (Unmarshal "\x7b\"amount\":-1e400\x7d".toList Transaction.empty).1
      = { Amount := Float64.inf true, Category := [], Type_ := [] } ∧
    Marshal (Unmarshal "\x7b\"amount\":-1e400\x7d".toList Transaction.empty).1
      = Except.error JsonError.UnsupportedValueError ∧
    (upload (stubWorld (Except.ok "hello".toList)
      (Except.ok ["\x7b\"amount\":-1e400\x7d".toList])) stubGlobals).outcome
      = Outcome.fatal FatalSite.marshal "json: unsupported value".toList := by
  refine ⟨by decide, rfl, rfl⟩

/-- C10 (amended): the fatal exit that guards serialisation is reached exactly
when the reply leaves an amount that is not finite.  `json.Unmarshal` never
stores NaN.  When the amount is finite the record serialises and `upload`
answers with status 200.  When it is not, the reply is a JSON object whose
last number addressed to `amount` is outside the `float64` range, the amount
is an infinity, and `upload` exits at the guard without a response. -/
theorem marshal_fails_only_on_infinite_amount (w : World) (g : Globals) (file : FileHeader)
    (text reply : Str) (h : Replied w g file text reply) :
    (Unmarshal reply Transaction.empty).1.Amount ≠ Float64.nan ∧
    ((Unmarshal reply Transaction.empty).1.Amount.isFinite = true →
      ∃ buf, Marshal (Unmarshal reply Transaction.empty).1 = Except.ok buf ∧
        (upload w g).outcome = Outcome.responded 200 (encodeBody buf)) ∧
    ((Unmarshal reply Transaction.empty).1.Amount.isFinite = false →
      (upload w g).outcome
        = Outcome.fatal FatalSite.marshal JsonError.UnsupportedValueError.text ∧
      ∃ ms lit neg, parseJSON reply = some (JValue.obj ms) ∧
        lastWellTyped Field.amount ms = some (JValue.num lit) ∧
        (ParseFloat lit).2 = true ∧
        (Unmarshal reply Transaction.empty).1.Amount = Float64.inf neg) := by
  refine ⟨?_, ?_, ?_⟩
  · rcases Unmarshal_amount reply with h0 | ⟨ms, lit, _, _, h1⟩
    · rw [h0]; intro hn; cases hn
    · rw [h1]; exact ParseFloat_ne_nan lit
  · intro hfin
    obtain ⟨_, _, _, _, hm⟩ := Marshal_of_finite _ hfin
    refine ⟨_, hm, ?_⟩
    rw [upload_of_replied w g file text reply h, hm]
    rfl
  · intro hinf
    constructor
    · rw [upload_of_replied w g file text reply h, Marshal_of_not_finite _ hinf]
    · rcases Unmarshal_amount reply with h0 | ⟨ms, lit, hp, hl, h1⟩
      · rw [h0] at hinf; simp [Float64.zero, Float64.isFinite] at hinf
      · have h2 : (ParseFloat lit).2 = true := by
          cases hr : (ParseFloat lit).2 with
          | true => rfl
          | false =>
            have := ParseFloat_finite lit hr
            rw [h1, this] at hinf
            cases hinf
        obtain ⟨neg, hn⟩ := ParseFloat_overflow lit h2
        exact ⟨ms, lit, neg, hp, hl, h2, by rw [h1, hn]⟩

/-- Witness of C10: the reply `{"amount":5}` leaves a finite amount and is
answered with status 200. -/
theorem marshal_fails_only_on_infinite_amount_witness :
    ∃ buf, Marshal (Unmarshal "\x7b\"amount\":5\x7d".toList Transaction.empty).1
        = Except.ok buf ∧
      (upload (stubWorld (Except.ok "hello".toList)
        (Except.ok ["\x7b\"amount\":5\x7d".toList])) stubGlobals).outcome
        = Outcome.responded 200 (encodeBody buf) :=
  (marshal_fails_only_on_infinite_amount
    (stubWorld (Except.ok "hello".toList) (Except.ok ["\x7b\"amount\":5\x7d".toList]))
    stubGlobals { Filename := "voice.mp3".toList } "hello".toList
    "\x7b\"amount\":5\x7d".toList ⟨⟨⟨rfl, rfl, rfl, rfl⟩, rfl⟩, [], rfl⟩).2.1 (by decide)

theorem getLast?_map_filter_perm (p : Str × JValue → Bool) (ms : List (Str × JValue))
    (l : List (Str × JValue)) (h : ms.Perm l) (hl : (l.filter p).length ≤ 1) :
    ((ms.filter p).map Prod.snd).getLast? = ((l.filter p).map Prod.snd).getLast? := by
  have hp : (ms.filter p).Perm (l.filter p) := h.filter p
  cases hlf : l.filter p with
  | nil => rw [hlf] at hp; rw [List.Perm.eq_nil hp]
  | cons a r =>
    rw [hlf] at hl hp
    cases r with
    | nil => rw [List.perm_singleton.1 hp]
    | cons b r' => simp at hl

/-- In an object with exactly the three members, each field finds its own. -/
theorem lastWellTyped_three (ms : List (Str × JValue)) (lit c t : Str)
    (h : ms.Perm [("amount".toList, JValue.num lit), ("category".toList, JValue.str c),
      ("type".toList, JValue.str t)]) :
    lastWellTyped Field.amount ms = some (JValue.num lit) ∧
    lastWellTyped Field.category ms = some (JValue.str c) ∧
    lastWellTyped Field.type_ ms = some (JValue.str t) := by
  have k1 : fieldOf "amount".toList = some Field.amount := by decide
  have k2 : fieldOf "category".toList = some Field.category := by decide
  have k3 : fieldOf "type".toList = some Field.type_ := by decide
  refine ⟨?_, ?_, ?_⟩
  · unfold lastWellTyped
    rw [getLast?_map_filter_perm _ ms _ h (by
      simp only [List.filter, k1, k2, k3, wellTyped]; simp)]
    simp only [List.filter, k1, k2, k3, wellTyped]; simp
  · unfold lastWellTyped
    rw [getLast?_map_filter_perm _ ms _ h (by
      simp only [List.filter, k1, k2, k3, wellTyped]; simp)]
    simp only [List.filter, k1, k2, k3, wellTyped]; simp
  · unfold lastWellTyped
    rw [getLast?_map_filter_perm _ ms _ h (by
      simp only [List.filter, k1, k2, k3, wellTyped]; simp)]
    simp only [List.filter, k1, k2, k3, wellTyped]; simp

set_option exponentiation.threshold 2000 in
set_option maxRecDepth 100000 in
/-- C2 (counterexample): the reply
`{"amount":1e400,"category":"coffee","type":"expense"}` has exactly the three
members, with a number, a string and a string, yet `upload` writes no response:
the amount is stored as `+Inf`, `json.Marshal` fails and the process exits. -/
theorem huge_amount_gets_no_response :
    parseJSON "\x7b\"amount\":1e400,\"category\":\"coffee\",\"type\":\"expense\"\x7d".toList
      = some (JValue.obj [("amount".toList, JValue.num "1e400".toList),
          ("category".toList, JValue.str "coffee".toList),
          ("type".toList, JValue.str "expense".toList)]) ∧
    (extractTransaction
      (stubWorld (Except.ok "Spent $12.50 on coffee".toList)
        (Except.ok ["\x7b\"amount\":1e400,\"category\":\"coffee\",\"type\":\"expense\"\x7d".toList]))
      stubGlobals "Spent $12.50 on coffee".toList).1
      = Ret.value { Amount := Float64.inf false, Category := "coffee".toList,
                    Type_ := "expense".toList } ∧
    (upload (stubWorld (Except.ok "Spent $12.50 on coffee".toList)
      (Except.ok ["\x7b\"amount\":1e400,\"category\":\"coffee\",\"type\":\"expense\"\x7d".toList]))
      stubGlobals).outcome = Outcome.fatal FatalSite.marshal "json: unsupported value".toList := by
  refine ⟨rfl, rfl, rfl⟩

/-- C2 (amended): for a reply that is a JSON object with exactly the members
`amount` (a number), `category` and `type` (strings).  When the number is
within the `float64` range, `upload` answers with status 200 and a body that
decodes, as a JSON string and then as JSON, to the object with the same
`category` and `type` and with the amount rounded to the nearest `float64`, in
its shortest form.  When the number is outside the range, the amount stored is
an infinity and `upload` exits at the guard of `json.Marshal` without a
response. -/
theorem three_member_reply_round_trip (w : World) (g : Globals) (file : FileHeader)
    (text reply : Str) (ms : List (Str × JValue)) (lit c t : Str)
    (h : Replied w g file text reply)
    (hp : parseJSON reply = some (JValue.obj ms))
    (hms : ms.Perm [("amount".toList, JValue.num lit), ("category".toList, JValue.str c),
      ("type".toList, JValue.str t)]) :
    ((ParseFloat lit).2 = false →
      ∃ body s, (upload w g).outcome = Outcome.responded 200 body ∧
        parseJSON body = some (JValue.str s) ∧
        parseJSON s = some (JValue.obj
          [("amount".toList, JValue.num (ParseFloat lit).1.text),
           ("category".toList, JValue.str c), ("type".toList, JValue.str t)])) ∧
    ((ParseFloat lit).2 = true →
      (upload w g).outcome
        = Outcome.fatal FatalSite.marshal JsonError.UnsupportedValueError.text) := by
  obtain ⟨h1, h2, h3⟩ := lastWellTyped_three ms lit c t hms
  have hrec : (Unmarshal reply Transaction.empty).1 =
      { Amount := (ParseFloat lit).1, Category := c, Type_ := t } := by
    simp only [Unmarshal, hp]
    rw [foldl_storeMember_fields, h1, h2, h3]
    rfl
  constructor
  · intro hr
    obtain ⟨neg, mant, exp, hA, hm⟩ :=
      Marshal_of_finite { Amount := (ParseFloat lit).1, Category := c, Type_ := t }
        (ParseFloat_finite lit hr)
    simp only at hA hm
    refine ⟨encodeBody ('{' :: (appendString Field.amount.key ++ ':' ::
          (formatFloat neg mant exp ++ ',' :: (appendString Field.category.key ++ ':' ::
          (appendString c ++ ',' :: (appendString Field.type_.key ++ ':' ::
          (appendString t ++ ['}']))))))), _, ?_, parseJSON_encodeBody _, ?_⟩
    · rw [upload_of_replied w g file text reply h, hrec, hm]; rfl
    · rw [hA]
      exact parseJSON_object neg mant exp c t
  · intro hr
    obtain ⟨neg, hn⟩ := ParseFloat_overflow lit hr
    rw [upload_of_replied w g file text reply h, hrec,
      Marshal_of_not_finite _ (by rw [hn]; rfl)]

/-- Witness of C2: the transcription `Spent $12.50 on coffee` and the reply
`{"amount":12.50,"category":"coffee","type":"expense"}` give a body that
decodes to `{"amount":12.5,"category":"coffee","type":"expense"}`. -/
theorem three_member_reply_round_trip_witness :
    (ParseFloat "12.50".toList).1.text = "12.5".toList ∧
    ∃ body s,
      (upload (stubWorld (Except.ok "Spent $12.50 on coffee".toList)
        (Except.ok ["\x7b\"amount\":12.50,\"category\":\"coffee\",\"type\":\"expense\"\x7d".toList]))
        stubGlobals).outcome = Outcome.responded 200 body ∧
      parseJSON body = some (JValue.str s) ∧
      parseJSON s = some (JValue.obj
        [("amount".toList, JValue.num (ParseFloat "12.50".toList).1.text),
         ("category".toList, JValue.str "coffee".toList),
         ("type".toList, JValue.str "expense".toList)]) :=
  ⟨by decide,
    (three_member_reply_round_trip
      (stubWorld (Except.ok "Spent $12.50 on coffee".toList)
        (Except.ok ["\x7b\"amount\":12.50,\"category\":\"coffee\",\"type\":\"expense\"\x7d".toList]))
      stubGlobals { Filename := "voice.mp3".toList } "Spent $12.50 on coffee".toList
      "\x7b\"amount\":12.50,\"category\":\"coffee\",\"type\":\"expense\"\x7d".toList
      _ "12.50".toList "coffee".toList "expense".toList
      ⟨⟨⟨rfl, rfl, rfl, rfl⟩, rfl⟩, [], rfl⟩ rfl (List.Perm.refl _)).1 (by decide)⟩

/-- Witness of C8: the request sent for the transcription
`Spent $12.50 on coffee` with the schema `{"type":"object"}`. -/
theorem upload_completion_request_witness :
    (upload (stubWorld (Except.ok "Spent $12.50 on coffee".toList) (Except.ok []))
      stubGlobals).events.filter Event.isCompletion =
      [Event.completion
        { Model := "gpt-3.5-turbo".toList,
          Messages :=
            [{ Role := "system".toList,
               Content :=
                 "You are a helpful assistant extracting a personal transaction from text. From the given text, create a valid JSON representation that strictly follows this schema:\n\n".toList
                 ++ "\x7b\"type\":\"object\"\x7d".toList ++
                 "\n\nIf no transaction can be found return an empty string. Omit null fields. Return JSON only. The JSON object:\n\n".toList },
             { Role := "user".toList, Content := "Spent $12.50 on coffee".toList }],
          MaxTokens := 2000,
          Temperature := 1,
          Stop := [],
          N := 1 }] :=
  upload_completion_request
    (stubWorld (Except.ok "Spent $12.50 on coffee".toList) (Except.ok [])) stubGlobals
    { Filename := "voice.mp3".toList } "Spent $12.50 on coffee".toList rfl rfl rfl rfl rfl

end Inference
